import Mathlib

set_option maxRecDepth 20000

/-!
# Verification of the vifdk order-book SDK core

Shallow embedding of the client-side core of the vifdk SDK: the
fixed-width integer guard, the token/amount model, the tick/price engine,
the packed-offer codec, the fee computations and the market-order
simulator.  TypeScript `bigint` values are embedded as `Int` (or `Nat`
where the source value is provably unsigned); TS `/` and `%` on `bigint`
truncate toward zero, so they are embedded as `Int.tdiv` / `Int.tmod`.
Mutable `TokenAmount` objects are embedded twice, consistently with one
shared arithmetic core:
* a value-level `TokenAmount` record for claims about a single object, and
* a store-based object semantics (`Store`, `TARef`) for the simulator,
  where every `TokenAmount` cell is an index into an explicit store, so
  that aliasing and mutation claims are expressible.
-/

/-! ## Fixed-width integer guard and integer utilities (`lib/utils.ts`) -/

/-- `checkFitsWithin` from `lib/utils.ts`: `false` for negative values, and
for nonnegative values compares `BigInt.asUintN(maxBits, amount)` (which is
`amount mod 2^maxBits`) with `amount`. -/
def checkFitsWithin (amount : Int) (maxBits : Nat) : Bool :=
  if amount < 0 then false
  else Int.emod amount (2 ^ maxBits) == amount

/-- `divUp` from `lib/utils.ts`: `(a + b - 1n) / b` with TS truncating
bigint division. -/
def divUp (a b : Int) : Int :=
  Int.tdiv (a + b - 1) b

/-- `mulDivUp` from `lib/utils.ts`. -/
def mulDivUp (a b denominator : Int) : Int :=
  divUp (a * b) denominator

/-! ## Constants (`lib/constants.ts`) -/

def MAX_TICK : Int := 8388607

def MIN_TICK : Int := -8388607

def OFFER_AMOUNT_BITS : Nat := 48

def UNITS_BITS : Nat := 64

def FEES_BITS : Nat := 16

def MAX_TICK_SPACING : Int := 2 ^ 16 - 1

def MIN_TICK_SPACING : Int := 1

/-! ## Token model (`lib/token.ts`) -/

/-- A `Token` from `lib/token.ts`.  The hex `address` is embedded as a
`Nat` (viem's `isAddressEqual` is exact comparison up to hex case). -/
structure Token where
  address : Nat
  decimals : Nat
  symbol : String
  unit : Int
deriving DecidableEq, Repr

/-- The synchronous, typed failures of the SDK core (one constructor per
error class of the source). -/
inductive SdkError where
  | tokenAmountOverflow (amount : Int)
  | unitOverflow (unit : Int)
  | offerAmountOverflow (amount : Int) (label : String)
  | tickOverflow (tick : Int)
  | tickSpacingOverflow (tickSpacing : Int)
  | feesOverflow (fees : Int)
  | priceOverflow
  | invalidToken (token : Token) (expected : List Token)
  | maxAmountLowerThanAmount
deriving DecidableEq, Repr

deriving instance DecidableEq for Except

/-- `Token.withUnit`: same address/decimals/symbol, different unit.  (The
source routes this through the private constructor whose
`checkFitsWithin(unit, 64)` guard is modelled in `Token.create`; all units
produced by `withUnit` inside the embedded core are `1` and `10^9`, which
pass it.) -/
def Token.withUnit (t : Token) (unit : Int) : Token :=
  ⟨t.address, t.decimals, t.symbol, unit⟩

/-- `Token.from`, including the private constructor's unit guard. -/
def Token.create (address : Nat) (decimals : Nat) (symbol : String)
    (unit : Int) : Except SdkError Token :=
  if !(checkFitsWithin unit UNITS_BITS) then .error (.unitOverflow unit)
  else .ok ⟨address, decimals, symbol, unit⟩

/-- `Token.equals`: address, decimals, symbol and unit must all match. -/
def Token.equals (a b : Token) : Bool :=
  a.address == b.address && a.decimals == b.decimals &&
    a.symbol == b.symbol && a.unit == b.unit

/-- The process-wide native token singleton (zero address, 18 decimals,
symbol `ETH`, unit 1). -/
def Token.NATIVE_TOKEN : Token := ⟨0, 18, "ETH", 1⟩

/-- The process-wide provision token singleton: the native token with a
gwei-like unit of `10^9`. -/
def Token.PROVISION_TOKEN : Token := Token.NATIVE_TOKEN.withUnit (10 ^ 9)

/-! ## Value-level `TokenAmount` (`lib/token.ts`)

A single mutable `TokenAmount` object, viewed functionally: each setter
returns the updated object (or the thrown error). -/

structure TokenAmount where
  amount : Int
  token : Token
deriving DecidableEq, Repr

/-- The `amount` setter of `TokenAmount`: 256-bit guard on the raw input,
then truncation down to the nearest multiple of `token.unit`
(`amount - (amount % unit)` with TS truncating `%`). -/
def TokenAmount.setAmount (ta : TokenAmount) (amount : Int) :
    Except SdkError TokenAmount :=
  if !(checkFitsWithin amount 256) then .error (.tokenAmountOverflow amount)
  else .ok { ta with amount := amount - Int.tmod amount ta.token.unit }

/-- The `normalizedAmount` getter: `rawAmount / unit` (TS truncating
division). -/
def TokenAmount.normalizedAmount (ta : TokenAmount) : Int :=
  Int.tdiv ta.amount ta.token.unit

/-- The `normalizedAmount` setter: routes `amount * unit` through the raw
`amount` setter. -/
def TokenAmount.setNormalizedAmount (ta : TokenAmount) (amount : Int) :
    Except SdkError TokenAmount :=
  ta.setAmount (amount * ta.token.unit)

/-- The `amountString` setter.  `parseUnits` is external (viem); the
already-parsed integer is taken as input and routed through the raw
`amount` setter, exactly as the source does. -/
def TokenAmount.setAmountString (ta : TokenAmount) (parsed : Int) :
    Except SdkError TokenAmount :=
  ta.setAmount parsed

/-- `TokenAmount.from` on an integer input: the private constructor stores
the raw field and immediately re-assigns it through the `amount` setter. -/
def TokenAmount.fromRaw (amount : Int) (token : Token) :
    Except SdkError TokenAmount :=
  TokenAmount.setAmount ⟨amount, token⟩ amount

/-- `TokenAmount.copy`: an independent clone built from the raw amount. -/
def TokenAmount.copy (ta : TokenAmount) : Except SdkError TokenAmount :=
  TokenAmount.fromRaw ta.amount ta.token

/-! ## Market fee computations (`lib/market.ts`) -/

def FEE_DENOMINATOR : Int := 1000000

/-- `Market.checkFees`. -/
def Market.checkFees (fees : Int) : Bool :=
  checkFitsWithin fees FEES_BITS

/-- `Market.checkTickSpacing`. -/
def Market.checkTickSpacing (tickSpacing : Int) : Bool :=
  decide (MIN_TICK_SPACING ≤ tickSpacing) && decide (tickSpacing ≤ MAX_TICK_SPACING)

/-- `Market._computeFees` on a value-level `TokenAmount`:
`fee = (amount * fees) / (FEE_DENOMINATOR - fees)` (truncating division),
optionally capped at `maxAmount - amount`; the fee is returned as an
amount of `feeToken.withUnit(1)`. -/
def Market.computeFeesTA (feeToken : Token) (amount : TokenAmount)
    (fees : Int) (maxAmount : Option TokenAmount) :
    Except SdkError TokenAmount :=
  if !(amount.token.address == feeToken.address) ||
      (match maxAmount with
       | some m => !(m.token.address == feeToken.address)
       | none => false) then
    .error (.invalidToken amount.token [feeToken])
  else
    let computedFees := Int.tdiv (amount.amount * fees) (FEE_DENOMINATOR - fees)
    match maxAmount with
    | some maxA =>
      if maxA.amount < amount.amount then .error .maxAmountLowerThanAmount
      else
        let maxFees := maxA.amount - amount.amount
        let cf := if maxFees < computedFees then maxFees else computedFees
        TokenAmount.fromRaw cf (feeToken.withUnit 1)
    | none => TokenAmount.fromRaw computedFees (feeToken.withUnit 1)

/-- `Market._excludingFees` on a value-level `TokenAmount`: copies the
amount and sets its normalized amount to
`(amount.normalizedAmount * (FEE_DENOMINATOR - fees)) / FEE_DENOMINATOR`. -/
def Market.excludingFeesTA (amount : TokenAmount) (feeToken : Token)
    (fees : Int) : Except SdkError TokenAmount :=
  if !(amount.token.address == feeToken.address) then
    .error (.invalidToken amount.token [feeToken])
  else do
    let result ← amount.copy
    result.setNormalizedAmount
      (Int.tdiv (amount.normalizedAmount * (FEE_DENOMINATOR - fees)) FEE_DENOMINATOR)

/-! ## Tick/price engine (`lib/tick.ts`) -/

/-- The 23-step product chain of `tickToPrice`, exactly as in the source:
start at `2^128`; bit 0 assigns the first constant directly, each later
set bit of `absTick` multiplies by a hardcoded 128-bit constant and
shifts right by 128. -/
def tickProduct (absTick : Nat) : Nat :=
  let price := 2 ^ 128
  let price := if absTick &&& 0x1 ≠ 0 then 0xffff583ac1ac1c114b9160ddeb4791b7 else price
  let price := if absTick &&& 0x2 ≠ 0 then (price * 0xfffeb075f14b276d06cdbc6b138e4c4b) >>> 128 else price
  let price := if absTick &&& 0x4 ≠ 0 then (price * 0xfffd60ed9a60ebcb383de6edb7557ef0) >>> 128 else price
  let price := if absTick &&& 0x8 ≠ 0 then (price * 0xfffac1e213e349a0cf1e3d3ec62bf25b) >>> 128 else price
  let price := if absTick &&& 0x10 ≠ 0 then (price * 0xfff583dfa4044e3dfe90c4057e3e4c27) >>> 128 else price
  let price := if absTick &&& 0x20 ≠ 0 then (price * 0xffeb082d36bf2958d476ee75c4da258a) >>> 128 else price
  let price := if absTick &&& 0x40 ≠ 0 then (price * 0xffd61212165632bd1dda4c1abdf5f9f1) >>> 128 else price
  let price := if absTick &&& 0x80 ≠ 0 then (price * 0xffac2b0240039d9cdadb751e0acc14c4) >>> 128 else price
  let price := if absTick &&& 0x100 ≠ 0 then (price * 0xff5871784dc6fa608dca410bdecb9ff4) >>> 128 else price
  let price := if absTick &&& 0x200 ≠ 0 then (price * 0xfeb1509bdff34ccb280fad9a309403cf) >>> 128 else price
  let price := if absTick &&& 0x400 ≠ 0 then (price * 0xfd6456c5e15445b458f4403d279c1a89) >>> 128 else price
  let price := if absTick &&& 0x800 ≠ 0 then (price * 0xfacf7ad7076227f61d95f764e8d7e35a) >>> 128 else price
  let price := if absTick &&& 0x1000 ≠ 0 then (price * 0xf5b9e413dd1b4e7046f8f721e1f1b295) >>> 128 else price
  let price := if absTick &&& 0x2000 ≠ 0 then (price * 0xebdd5589751f38fd7adce84988dba856) >>> 128 else price
  let price := if absTick &&& 0x4000 ≠ 0 then (price * 0xd9501a6728f01c1f121094aacf4c9475) >>> 128 else price
  let price := if absTick &&& 0x8000 ≠ 0 then (price * 0xb878e5d36699c3a0fd844110d8b9945f) >>> 128 else price
  let price := if absTick &&& 0x10000 ≠ 0 then (price * 0x84ee037828011d8035f12eb571b46c2a) >>> 128 else price
  let price := if absTick &&& 0x20000 ≠ 0 then (price * 0x450650de5cb791d4a002074d7f179cb3) >>> 128 else price
  let price := if absTick &&& 0x40000 ≠ 0 then (price * 0x129c67bfc1f3084f1f52dd418a4a8f6d) >>> 128 else price
  let price := if absTick &&& 0x80000 ≠ 0 then (price * 0x15a5e2593066b11cd1c3ea05eb95f74) >>> 128 else price
  let price := if absTick &&& 0x100000 ≠ 0 then (price * 0x1d4a2a0310ad5f70ad53ef4d3dcf3) >>> 128 else price
  let price := if absTick &&& 0x200000 ≠ 0 then (price * 0x359e3010271ed5cfce08f99aa) >>> 128 else price
  let price := if absTick &&& 0x400000 ≠ 0 then (price * 0xb3ae1a60d291e4871) >>> 128 else price
  price

/-- `tickToPrice` from `lib/tick.ts`: the fixed-point 128.128 price of a
tick; positive ticks invert the product as `2^256 / price` (truncating
division). -/
def tickToPrice (tick : Int) : Nat :=
  let absTick := (if tick < 0 then -tick else tick).toNat
  let price := tickProduct absTick
  if 0 < tick then 2 ^ 256 / price else price

/-- The spec's description of `tickToPrice` ("tick law"): start a running
product at `2^128`; for each of the 23 bits of `|tick|` that is set,
multiply the product by the corresponding hardcoded constant and
right-shift by 128; if the tick is positive return `2^256` divided by the
product.  (Reference definition, written from the spec's words, to be
compared with the source-derived `tickToPrice`.) -/
def tickToPriceSpec (tick : Int) : Nat :=
  let absTick := tick.natAbs
  let price := 2 ^ 128
  let price := if absTick.testBit 0 then (price * 0xffff583ac1ac1c114b9160ddeb4791b7) >>> 128 else price
  let price := if absTick.testBit 1 then (price * 0xfffeb075f14b276d06cdbc6b138e4c4b) >>> 128 else price
  let price := if absTick.testBit 2 then (price * 0xfffd60ed9a60ebcb383de6edb7557ef0) >>> 128 else price
  let price := if absTick.testBit 3 then (price * 0xfffac1e213e349a0cf1e3d3ec62bf25b) >>> 128 else price
  let price := if absTick.testBit 4 then (price * 0xfff583dfa4044e3dfe90c4057e3e4c27) >>> 128 else price
  let price := if absTick.testBit 5 then (price * 0xffeb082d36bf2958d476ee75c4da258a) >>> 128 else price
  let price := if absTick.testBit 6 then (price * 0xffd61212165632bd1dda4c1abdf5f9f1) >>> 128 else price
  let price := if absTick.testBit 7 then (price * 0xffac2b0240039d9cdadb751e0acc14c4) >>> 128 else price
  let price := if absTick.testBit 8 then (price * 0xff5871784dc6fa608dca410bdecb9ff4) >>> 128 else price
  let price := if absTick.testBit 9 then (price * 0xfeb1509bdff34ccb280fad9a309403cf) >>> 128 else price
  let price := if absTick.testBit 10 then (price * 0xfd6456c5e15445b458f4403d279c1a89) >>> 128 else price
  let price := if absTick.testBit 11 then (price * 0xfacf7ad7076227f61d95f764e8d7e35a) >>> 128 else price
  let price := if absTick.testBit 12 then (price * 0xf5b9e413dd1b4e7046f8f721e1f1b295) >>> 128 else price
  let price := if absTick.testBit 13 then (price * 0xebdd5589751f38fd7adce84988dba856) >>> 128 else price
  let price := if absTick.testBit 14 then (price * 0xd9501a6728f01c1f121094aacf4c9475) >>> 128 else price
  let price := if absTick.testBit 15 then (price * 0xb878e5d36699c3a0fd844110d8b9945f) >>> 128 else price
  let price := if absTick.testBit 16 then (price * 0x84ee037828011d8035f12eb571b46c2a) >>> 128 else price
  let price := if absTick.testBit 17 then (price * 0x450650de5cb791d4a002074d7f179cb3) >>> 128 else price
  let price := if absTick.testBit 18 then (price * 0x129c67bfc1f3084f1f52dd418a4a8f6d) >>> 128 else price
  let price := if absTick.testBit 19 then (price * 0x15a5e2593066b11cd1c3ea05eb95f74) >>> 128 else price
  let price := if absTick.testBit 20 then (price * 0x1d4a2a0310ad5f70ad53ef4d3dcf3) >>> 128 else price
  let price := if absTick.testBit 21 then (price * 0x359e3010271ed5cfce08f99aa) >>> 128 else price
  let price := if absTick.testBit 22 then (price * 0xb3ae1a60d291e4871) >>> 128 else price
  if 0 < tick then 2 ^ 256 / price else price

/-- A `Tick` object: its (already truncated) value and its spacing. -/
structure Tick where
  value : Int
  tickSpacing : Int
deriving DecidableEq, Repr

/-- `Tick.checkTick`: the (truncated) tick must lie in
`[MIN_TICK, MAX_TICK]`. -/
def Tick.checkTick (tick : Int) : Bool :=
  decide (MIN_TICK ≤ tick) && decide (tick ≤ MAX_TICK)

/-- `Tick.fromValue` (the private constructor plus the `value` setter):
check the spacing, truncate the tick toward zero to a multiple of the
spacing (`tickSpacing * (tick / tickSpacing)` with TS truncating
division), then range-check the truncated value. -/
def Tick.fromValue (tick : Int) (tickSpacing : Int) : Except SdkError Tick :=
  if !(Market.checkTickSpacing tickSpacing) then
    .error (.tickSpacingOverflow tickSpacing)
  else
    let t := tickSpacing * Int.tdiv tick tickSpacing
    if !(Tick.checkTick t) then .error (.tickOverflow t)
    else .ok ⟨t, tickSpacing⟩

/-- The `price` getter (the process-wide memoization cache is pure
caching, so it is dropped). -/
def Tick.price (t : Tick) : Nat := tickToPrice t.value

/-- `Tick.MAX_TICK(tickSpacing)`: `new Tick(MAX_TICK, tickSpacing)`. -/
def Tick.maxTickOf (tickSpacing : Int) : Except SdkError Tick :=
  Tick.fromValue MAX_TICK tickSpacing

/-- `Offer.checkOfferAmount`: a normalized offer amount must fit 48
unsigned bits. -/
def Offer.checkOfferAmount (amount : Int) : Bool :=
  checkFitsWithin amount OFFER_AMOUNT_BITS

/-- The free function `inboundFromOutbound` from `lib/tick.ts`:
`divUp(divUp(outbound * outboundUnit * price, 2^128), inboundUnit)`,
guarded by the 48-bit offer-amount check. -/
def inboundFromOutboundFn (price outbound outboundUnit inboundUnit : Int) :
    Except SdkError Int :=
  let inbound := divUp (divUp (outbound * outboundUnit * price) (2 ^ 128)) inboundUnit
  if !(Offer.checkOfferAmount inbound) then
    .error (.offerAmountOverflow inbound "inbound")
  else .ok inbound

/-! ## Packed-offer codec (`lib/offer.ts`) -/

/-- The decoded fields of a packed offer word. -/
structure RawOfferData where
  prev : Nat
  next : Nat
  expiry : Option Nat
  gives : Nat
  received : Nat
  tick : Int
  provision : Nat
  isActive : Bool
deriving DecidableEq, Repr

def PREV_MASK : Nat := 0xffffffffff
def NEXT_MASK : Nat := 0xffffffffff
def EXPIRY_MASK : Nat := 0xffffffff
def GIVES_MASK : Nat := 0xffffffffffff
def RECEIVED_MASK : Nat := 0xffffffffffff
def TICK_MASK : Nat := 0xffffff
def PROVISION_MASK : Nat := 0x7fffff
def IS_ACTIVE_MASK : Nat := 0x01

def PREV_SHIFT : Nat := 0xd8
def NEXT_SHIFT : Nat := 0xb0
def EXPIRY_SHIFT : Nat := 0x90
def GIVES_SHIFT : Nat := 0x60
def RECEIVED_SHIFT : Nat := 0x30
def TICK_SHIFT : Nat := 0x18
def PROVISION_SHIFT : Nat := 0x01
def IS_ACTIVE_SHIFT : Nat := 0x00

/-- `BigInt.asIntN(24, ·)` on an already-masked 24-bit value: interpret it
as a signed two's-complement 24-bit integer. -/
def asIntN24 (v : Nat) : Int :=
  if v < 2 ^ 23 then (v : Int) else (v : Int) - 2 ^ 24

/-- `unpackOffer` from `lib/offer.ts`: mask-and-shift extraction of every
field; `expiry = 0` decodes to no expiry; the tick field is sign-extended. -/
def unpackOffer (offer : Nat) : RawOfferData :=
  let expiry := (offer >>> EXPIRY_SHIFT) &&& EXPIRY_MASK
  { prev := (offer >>> PREV_SHIFT) &&& PREV_MASK
    next := (offer >>> NEXT_SHIFT) &&& NEXT_MASK
    expiry := if expiry == 0 then none else some expiry
    gives := (offer >>> GIVES_SHIFT) &&& GIVES_MASK
    received := (offer >>> RECEIVED_SHIFT) &&& RECEIVED_MASK
    tick := asIntN24 ((offer >>> TICK_SHIFT) &&& TICK_MASK)
    provision := (offer >>> PROVISION_SHIFT) &&& PROVISION_MASK
    isActive := ((offer >>> IS_ACTIVE_SHIFT) &&& IS_ACTIVE_MASK) == IS_ACTIVE_MASK }

/-- The spec's description of the offer layout, most-significant first:
`prev`(40) `next`(40) `expiry`(32, 0 = no expiry) `gives`(48)
`received`(48) `tick`(24, signed two's-complement) `provision`(23)
`isActive`(1).  Each field is read as `(word / 2^offset) mod 2^width`
at its declared offset.  (Reference definition, written from the spec's
words, to be compared with the source-derived `unpackOffer`.) -/
def unpackOfferLayout (w : Nat) : RawOfferData :=
  let e : Nat := w / 2 ^ 144 % 2 ^ 32
  let t : Nat := w / 2 ^ 24 % 2 ^ 24
  { prev := w / 2 ^ 216 % 2 ^ 40
    next := w / 2 ^ 176 % 2 ^ 40
    expiry := if e = 0 then none else some e
    gives := w / 2 ^ 96 % 2 ^ 48
    received := w / 2 ^ 48 % 2 ^ 48
    tick := if t < 2 ^ 23 then (t : Int) else (t : Int) - 2 ^ 24
    provision := w / 2 ^ 1 % 2 ^ 23
    isActive := w % 2 ^ 1 == 1 }

/-! ## Store-based object semantics for the simulator (`lib/simulation.ts`)

A `TokenAmount` object is a mutable cell; the heap of cells is an explicit
`Store` (indexed by allocation order) so that mutation and aliasing are
observable.  Each source statement `x.amount = e` becomes a `taSet`,
`new TokenAmount(...)` becomes a `taAlloc` (append a cell, then run the
setter), and reads go through `taGet`. -/

/-- The heap of `TokenAmount` cells, by allocation order. -/
abbrev Store := List Int

/-- A reference to a `TokenAmount` object: the index of its cell plus its
immutable token. -/
structure TARef where
  ref : Nat
  token : Token
deriving DecidableEq, Repr

/-- The `amount` getter. -/
def taGet (σ : Store) (ta : TARef) : Int :=
  σ.getD ta.ref 0

/-- The `amount` setter: 256-bit guard, then truncation to a multiple of
the token's unit (same arithmetic as `TokenAmount.setAmount`). -/
def taSet (σ : Store) (ta : TARef) (v : Int) : Except SdkError Store :=
  if !(checkFitsWithin v 256) then .error (.tokenAmountOverflow v)
  else .ok (σ.set ta.ref (v - Int.tmod v ta.token.unit))

/-- The `normalizedAmount` getter. -/
def taGetNormalized (σ : Store) (ta : TARef) : Int :=
  Int.tdiv (taGet σ ta) ta.token.unit

/-- The `normalizedAmount` setter. -/
def taSetNormalized (σ : Store) (ta : TARef) (v : Int) : Except SdkError Store :=
  taSet σ ta (v * ta.token.unit)

/-- `TokenAmount.from` / `token.amount(v)`: allocate a fresh cell and run
the `amount` setter on it. -/
def taAlloc (σ : Store) (token : Token) (v : Int) :
    Except SdkError (Store × TARef) := do
  let r : TARef := ⟨σ.length, token⟩
  let σ' ← taSet (σ ++ [0]) r v
  pure (σ', r)

/-- `TokenAmount.copy`: an independent clone of the cell. -/
def taCopy (σ : Store) (ta : TARef) : Except SdkError (Store × TARef) :=
  taAlloc σ ta.token (taGet σ ta)

/-- `Tick.inboundFromOutbound` (method): allocate a zero inbound amount,
then set its normalized amount to the free-function conversion of the
outbound amount at this tick's price. -/
def Tick.inboundFromOutboundST (σ : Store) (tk : Tick) (outbound : TARef)
    (inboundTok : Token) : Except SdkError (Store × TARef) := do
  let (σ1, result) ← taAlloc σ inboundTok 0
  let v ← inboundFromOutboundFn ((tickToPrice tk.value : Int))
    (taGetNormalized σ1 outbound) outbound.token.unit inboundTok.unit
  let σ2 ← taSetNormalized σ1 result v
  pure (σ2, result)

/-- One trading direction of a market, with the `asks`/`bids` dispatch
already resolved: for both directions the source's `computeFees` and
`excludingFees` use the direction's inbound token as fee token (asks use
the quote = asks-inbound token and `askFees ?? 0`; bids use the base =
bids-inbound token and `bidsFees ?? 0`). -/
structure SemiMarket where
  inboundTok : Token
  outboundTok : Token
  fees : Int
  tickSpacing : Int
deriving DecidableEq, Repr

/-- `SemiMarket.computeFees` in the store semantics (the arithmetic is
`Market._computeFees`). -/
def SemiMarket.computeFeesST (σ : Store) (m : SemiMarket) (amount : TARef)
    (maxAmount : Option TARef) : Except SdkError (Store × TARef) :=
  if !(amount.token.address == m.inboundTok.address) ||
      (match maxAmount with
       | some r => !(r.token.address == m.inboundTok.address)
       | none => false) then
    .error (.invalidToken amount.token [m.inboundTok])
  else
    let computedFees := Int.tdiv (taGet σ amount * m.fees) (FEE_DENOMINATOR - m.fees)
    match maxAmount with
    | some maxA =>
      if taGet σ maxA < taGet σ amount then .error .maxAmountLowerThanAmount
      else
        let maxFees := taGet σ maxA - taGet σ amount
        let cf := if maxFees < computedFees then maxFees else computedFees
        taAlloc σ (m.inboundTok.withUnit 1) cf
    | none => taAlloc σ (m.inboundTok.withUnit 1) computedFees

/-- `SemiMarket.excludingFees` in the store semantics (the arithmetic is
`Market._excludingFees`). -/
def SemiMarket.excludingFeesST (σ : Store) (m : SemiMarket) (amount : TARef) :
    Except SdkError (Store × TARef) :=
  if !(amount.token.address == m.inboundTok.address) then
    .error (.invalidToken amount.token [m.inboundTok])
  else do
    let (σ1, result) ← taCopy σ amount
    let σ2 ← taSetNormalized σ1 result
      (Int.tdiv (taGetNormalized σ1 amount * (FEE_DENOMINATOR - m.fees)) FEE_DENOMINATOR)
    pure (σ2, result)

/-- `SimpleOfferData`: the simplified offer records the simulator walks. -/
structure OfferS where
  gives : TARef
  tick : Tick
  expiry : Option Int
  provision : Option TARef
deriving DecidableEq, Repr

/-- The `OrderResult` of a simulation (references to the four accumulator
cells). -/
structure OrderResultR where
  gave : TARef
  got : TARef
  fee : TARef
  bounty : TARef
deriving DecidableEq, Repr

/-- `SimulationParams`.  The `date` default (`new Date()`, the external
clock) is taken as an explicit parameter. -/
structure SimulationParams where
  market : SemiMarket
  amount : TARef
  offers : List OfferS
  maxTick : Option Tick
  date : Int
  provision : Option TARef
deriving DecidableEq, Repr

/-- Whether an offer counts as expired at `date`
(`offer.expiry && date >= offer.expiry`). -/
def offerExpired (date : Int) (o : OfferS) : Bool :=
  match o.expiry with
  | some e => decide (e ≤ date)
  | none => false

/-- The loop of `_simulateExactIn`, one offer per step.  Cells: `excl` is
the fee-excluded remaining input, `gave`/`got`/`bounty` are the result
accumulators, `provision` is the caller's global provision budget. -/
def simInLoop (m : SemiMarket) (excl gave got bounty provision : TARef)
    (maxTickV date : Int) : List OfferS → Store → Except SdkError Store
  | [], σ => .ok σ
  | o :: rest, σ =>
    if taGet σ excl == 0 then .ok σ
    else if maxTickV < o.tick.value then .ok σ
    else do
      let (σ1, wants) ← Tick.inboundFromOutboundST σ o.tick o.gives m.inboundTok
      if offerExpired date o then do
        let fromOffer := match o.provision with | some p => taGet σ1 p | none => 0
        let add := if taGet σ1 provision < fromOffer
                   then taGet σ1 provision else fromOffer
        let σ2 ← taSet σ1 bounty (taGet σ1 bounty + add)
        simInLoop m excl gave got bounty provision maxTickV date rest σ2
      else
        if taGet σ1 wants ≤ taGet σ1 excl then do
          let σ2 ← taSet σ1 gave (taGet σ1 gave + taGet σ1 wants)
          let σ3 ← taSet σ2 got (taGet σ2 got + taGet σ2 o.gives)
          let σ4 ← taSet σ3 excl (taGet σ3 excl - taGet σ3 wants)
          simInLoop m excl gave got bounty provision maxTickV date rest σ4
        else
          let receivedNormalized :=
            Int.tdiv (taGetNormalized σ1 o.gives * taGetNormalized σ1 excl)
              (taGetNormalized σ1 wants)
          if receivedNormalized == 0 then .ok σ1
          else do
            let σ2 ← taSetNormalized σ1 got (taGetNormalized σ1 got + receivedNormalized)
            let σ3 ← taSet σ2 gave (taGet σ2 gave + taGet σ2 excl)
            let σ4 ← taSet σ3 excl 0
            simInLoop m excl gave got bounty provision maxTickV date rest σ4

/-- Resolution of the `maxTick` destructuring default
(`maxTick = Tick.MAX_TICK(market.market.tickSpacing)`). -/
def resolveMaxTick (maxTick : Option Tick) (tickSpacing : Int) :
    Except SdkError Tick :=
  match maxTick with
  | some t => pure t
  | none => Tick.maxTickOf tickSpacing

/-- Resolution of the `provision` destructuring default
(`provision = Token.PROVISION_TOKEN.amount(0n)`, a fresh cell). -/
def resolveProvision (σ : Store) (provision : Option TARef) :
    Except SdkError (Store × TARef) :=
  match provision with
  | some r => pure (σ, r)
  | none => taAlloc σ Token.PROVISION_TOKEN 0

/-- `_simulateExactIn`: defaults, result-cell allocation, the fee
pre-deduction, the walk, and the final fee recomputation against the
original gross amount. -/
def simulateExactIn (σ0 : Store) (p : SimulationParams) :
    Except SdkError (Store × OrderResultR) := do
  let m := p.market
  let maxTick ← resolveMaxTick p.maxTick m.tickSpacing
  let (σa, provision) ← resolveProvision σ0 p.provision
  let (σb, gave) ← taAlloc σa m.inboundTok 0
  let (σc, got) ← taAlloc σb m.outboundTok 0
  let (σd, _fee0) ← taAlloc σc (m.inboundTok.withUnit 1) 0
  let (σe, bounty) ← taAlloc σd Token.PROVISION_TOKEN 0
  let (σf, excl) ← SemiMarket.excludingFeesST σe m p.amount
  let σg ← simInLoop m excl gave got bounty provision maxTick.value p.date p.offers σf
  let (σh, fee) ← SemiMarket.computeFeesST σg m gave (some p.amount)
  pure (σh, ⟨gave, got, fee, bounty⟩)

/-- The loop of `_simulateExactOut`: driven by the remaining desired
output `amt` (the copy of the caller's amount); partial fills round the
taker's payment up via `mulDivUp`. -/
def simOutLoop (m : SemiMarket) (amt gave got bounty provision : TARef)
    (maxTickV date : Int) : List OfferS → Store → Except SdkError Store
  | [], σ => .ok σ
  | o :: rest, σ =>
    if taGet σ amt == 0 then .ok σ
    else if maxTickV < o.tick.value then .ok σ
    else
      if offerExpired date o then do
        let fromOffer := match o.provision with | some p => taGet σ p | none => 0
        let add := if taGet σ provision < fromOffer
                   then taGet σ provision else fromOffer
        let σ1 ← taSet σ bounty (taGet σ bounty + add)
        simOutLoop m amt gave got bounty provision maxTickV date rest σ1
      else do
        let (σ1, wants) ← Tick.inboundFromOutboundST σ o.tick o.gives m.inboundTok
        if taGet σ1 o.gives ≤ taGet σ1 amt then do
          let σ2 ← taSet σ1 gave (taGet σ1 gave + taGet σ1 wants)
          let σ3 ← taSet σ2 got (taGet σ2 got + taGet σ2 o.gives)
          let σ4 ← taSet σ3 amt (taGet σ3 amt - taGet σ3 o.gives)
          simOutLoop m amt gave got bounty provision maxTickV date rest σ4
        else do
          let σ2 ← taSetNormalized σ1 gave (taGetNormalized σ1 gave +
            mulDivUp (taGetNormalized σ1 wants) (taGetNormalized σ1 amt)
              (taGetNormalized σ1 o.gives))
          let σ3 ← taSet σ2 got (taGet σ2 got + taGet σ2 amt)
          let σ4 ← taSet σ3 amt 0
          simOutLoop m amt gave got bounty provision maxTickV date rest σ4

/-- `_simulateExactOut`: operates on a copy of the caller's amount; the
final fee is computed on `gave` with no cap. -/
def simulateExactOut (σ0 : Store) (p : SimulationParams) :
    Except SdkError (Store × OrderResultR) := do
  let m := p.market
  let maxTick ← resolveMaxTick p.maxTick m.tickSpacing
  let (σa, provision) ← resolveProvision σ0 p.provision
  let (σb, gave) ← taAlloc σa m.inboundTok 0
  let (σc, got) ← taAlloc σb m.outboundTok 0
  let (σd, _fee0) ← taAlloc σc (m.inboundTok.withUnit 1) 0
  let (σe, bounty) ← taAlloc σd Token.PROVISION_TOKEN 0
  let (σf, amt) ← taCopy σe p.amount
  let σg ← simOutLoop m amt gave got bounty provision maxTick.value p.date p.offers σf
  let (σh, fee) ← SemiMarket.computeFeesST σg m gave none
  pure (σh, ⟨gave, got, fee, bounty⟩)

/-- `simulate`: dispatch on the denomination of the trade amount. -/
def simulate (σ : Store) (p : SimulationParams) :
    Except SdkError (Store × OrderResultR) :=
  if p.amount.token.equals p.market.inboundTok then simulateExactIn σ p
  else if p.amount.token.equals p.market.outboundTok then simulateExactOut σ p
  else .error (.invalidToken p.amount.token
    [p.market.inboundTok, p.market.outboundTok])

/-! ## Shared arithmetic helper lemmas -/

/-- `checkFitsWithin` holds exactly for `0 ≤ a < 2^bits`. -/
theorem checkFitsWithin_iff (a : Int) (bits : Nat) :
    checkFitsWithin a bits = true ↔ 0 ≤ a ∧ a < 2 ^ bits := by
  unfold checkFitsWithin
  split
  · simp only [Bool.false_eq_true, false_iff]
    omega
  · rename_i hneg
    push_neg at hneg
    have hpos : (0 : Int) < 2 ^ bits := by positivity
    rw [show Int.emod a (2 ^ bits) = a % 2 ^ bits from rfl]
    simp only [beq_iff_eq]
    constructor
    · intro he
      refine ⟨hneg, ?_⟩
      by_contra hlt
      push_neg at hlt
      have := Int.emod_lt_of_pos a hpos
      omega
    · intro ⟨_, hlt⟩
      exact Int.emod_eq_of_lt hneg hlt

/-- A single bit-test via masking agrees with `Nat.testBit`. -/
theorem land_two_pow_ne_zero (n k : Nat) :
    (n &&& 2 ^ k ≠ 0) = (n.testBit k = true) := by
  apply propext
  rw [Nat.and_two_pow]
  rcases h : n.testBit k <;> simp [h]

/-- C1 helper: the source `tickToPrice` agrees with the spec's uniform
multiply-and-shift chain for every tick. -/
theorem tickToPrice_eq_spec (t : Int) : tickToPrice t = tickToPriceSpec t := by
  unfold tickToPrice tickToPriceSpec tickProduct
  have habs : (if t < 0 then -t else t).toNat = t.natAbs := by
    split <;> omega
  rw [habs]
  have hc0 : (t.natAbs &&& 1 ≠ 0) = (t.natAbs.testBit 0 = true) := by
    rw [show (1 : Nat) = 2 ^ 0 from rfl]
    exact land_two_pow_ne_zero t.natAbs 0
  have hc1 : (t.natAbs &&& 2 ≠ 0) = (t.natAbs.testBit 1 = true) := by
    rw [show (2 : Nat) = 2 ^ 1 from rfl]
    exact land_two_pow_ne_zero t.natAbs 1
  have hc2 : (t.natAbs &&& 4 ≠ 0) = (t.natAbs.testBit 2 = true) := by
    rw [show (4 : Nat) = 2 ^ 2 from rfl]
    exact land_two_pow_ne_zero t.natAbs 2
  have hc3 : (t.natAbs &&& 8 ≠ 0) = (t.natAbs.testBit 3 = true) := by
    rw [show (8 : Nat) = 2 ^ 3 from rfl]
    exact land_two_pow_ne_zero t.natAbs 3
  have hc4 : (t.natAbs &&& 16 ≠ 0) = (t.natAbs.testBit 4 = true) := by
    rw [show (16 : Nat) = 2 ^ 4 from rfl]
    exact land_two_pow_ne_zero t.natAbs 4
  have hc5 : (t.natAbs &&& 32 ≠ 0) = (t.natAbs.testBit 5 = true) := by
    rw [show (32 : Nat) = 2 ^ 5 from rfl]
    exact land_two_pow_ne_zero t.natAbs 5
  have hc6 : (t.natAbs &&& 64 ≠ 0) = (t.natAbs.testBit 6 = true) := by
    rw [show (64 : Nat) = 2 ^ 6 from rfl]
    exact land_two_pow_ne_zero t.natAbs 6
  have hc7 : (t.natAbs &&& 128 ≠ 0) = (t.natAbs.testBit 7 = true) := by
    rw [show (128 : Nat) = 2 ^ 7 from rfl]
    exact land_two_pow_ne_zero t.natAbs 7
  have hc8 : (t.natAbs &&& 256 ≠ 0) = (t.natAbs.testBit 8 = true) := by
    rw [show (256 : Nat) = 2 ^ 8 from rfl]
    exact land_two_pow_ne_zero t.natAbs 8
  have hc9 : (t.natAbs &&& 512 ≠ 0) = (t.natAbs.testBit 9 = true) := by
    rw [show (512 : Nat) = 2 ^ 9 from rfl]
    exact land_two_pow_ne_zero t.natAbs 9
  have hc10 : (t.natAbs &&& 1024 ≠ 0) = (t.natAbs.testBit 10 = true) := by
    rw [show (1024 : Nat) = 2 ^ 10 from rfl]
    exact land_two_pow_ne_zero t.natAbs 10
  have hc11 : (t.natAbs &&& 2048 ≠ 0) = (t.natAbs.testBit 11 = true) := by
    rw [show (2048 : Nat) = 2 ^ 11 from rfl]
    exact land_two_pow_ne_zero t.natAbs 11
  have hc12 : (t.natAbs &&& 4096 ≠ 0) = (t.natAbs.testBit 12 = true) := by
    rw [show (4096 : Nat) = 2 ^ 12 from rfl]
    exact land_two_pow_ne_zero t.natAbs 12
  have hc13 : (t.natAbs &&& 8192 ≠ 0) = (t.natAbs.testBit 13 = true) := by
    rw [show (8192 : Nat) = 2 ^ 13 from rfl]
    exact land_two_pow_ne_zero t.natAbs 13
  have hc14 : (t.natAbs &&& 16384 ≠ 0) = (t.natAbs.testBit 14 = true) := by
    rw [show (16384 : Nat) = 2 ^ 14 from rfl]
    exact land_two_pow_ne_zero t.natAbs 14
  have hc15 : (t.natAbs &&& 32768 ≠ 0) = (t.natAbs.testBit 15 = true) := by
    rw [show (32768 : Nat) = 2 ^ 15 from rfl]
    exact land_two_pow_ne_zero t.natAbs 15
  have hc16 : (t.natAbs &&& 65536 ≠ 0) = (t.natAbs.testBit 16 = true) := by
    rw [show (65536 : Nat) = 2 ^ 16 from rfl]
    exact land_two_pow_ne_zero t.natAbs 16
  have hc17 : (t.natAbs &&& 131072 ≠ 0) = (t.natAbs.testBit 17 = true) := by
    rw [show (131072 : Nat) = 2 ^ 17 from rfl]
    exact land_two_pow_ne_zero t.natAbs 17
  have hc18 : (t.natAbs &&& 262144 ≠ 0) = (t.natAbs.testBit 18 = true) := by
    rw [show (262144 : Nat) = 2 ^ 18 from rfl]
    exact land_two_pow_ne_zero t.natAbs 18
  have hc19 : (t.natAbs &&& 524288 ≠ 0) = (t.natAbs.testBit 19 = true) := by
    rw [show (524288 : Nat) = 2 ^ 19 from rfl]
    exact land_two_pow_ne_zero t.natAbs 19
  have hc20 : (t.natAbs &&& 1048576 ≠ 0) = (t.natAbs.testBit 20 = true) := by
    rw [show (1048576 : Nat) = 2 ^ 20 from rfl]
    exact land_two_pow_ne_zero t.natAbs 20
  have hc21 : (t.natAbs &&& 2097152 ≠ 0) = (t.natAbs.testBit 21 = true) := by
    rw [show (2097152 : Nat) = 2 ^ 21 from rfl]
    exact land_two_pow_ne_zero t.natAbs 21
  have hc22 : (t.natAbs &&& 4194304 ≠ 0) = (t.natAbs.testBit 22 = true) := by
    rw [show (4194304 : Nat) = 2 ^ 22 from rfl]
    exact land_two_pow_ne_zero t.natAbs 22
  have h0 : ((2 : Nat) ^ 128 * 0xffff583ac1ac1c114b9160ddeb4791b7) >>> 128 =
      0xffff583ac1ac1c114b9160ddeb4791b7 := by
    rw [Nat.shiftRight_eq_div_pow]
    exact Nat.mul_div_cancel_left _ (by positivity)
  simp only [hc0, hc1, hc2, hc3, hc4, hc5, hc6, hc7, hc8, hc9, hc10, hc11, hc12, hc13, hc14, hc15, hc16, hc17, hc18, hc19, hc20, hc21, hc22, h0]


/-! ## C1: `tickToPrice` equals the binary fixed-point exponentiation
reference -/

/-- C1: for every tick in `[MIN_TICK, MAX_TICK]`, `tickToPrice` equals
the spec's binary exponentiation reference: start at `2^128`, multiply by
the hardcoded constant and right-shift 128 for each set bit of `|tick|`,
and invert as `2^256 / price` exactly when the tick is positive. -/
theorem c1_tickToPrice_matches_spec (t : Int) (h1 : MIN_TICK ≤ t)
    (h2 : t ≤ MAX_TICK) : tickToPrice t = tickToPriceSpec t :=
  tickToPrice_eq_spec t

theorem c1_tickToPrice_matches_spec_witness :
    MIN_TICK ≤ (5 : Int) ∧ (5 : Int) ≤ MAX_TICK ∧
      tickToPrice 5 = tickToPriceSpec 5 :=
  ⟨by decide, by decide, c1_tickToPrice_matches_spec 5 (by decide) (by decide)⟩

/-! ## C2: `inboundFromOutbound` is a double ceiling division with a
48-bit guard -/

/-- `divUp a b` is the ceiling of `a / b` for `0 ≤ a`, `0 < b`: it is the
least integer `q` with `a ≤ b * q`. -/
theorem divUp_ceil (a b : Int) (ha : 0 ≤ a) (hb : 0 < b) :
    a ≤ b * divUp a b ∧ b * (divUp a b - 1) < a := by
  unfold divUp
  rw [Int.tdiv_eq_ediv (by omega) (by omega)]
  have hmod := Int.emod_lt_of_pos (a + b - 1) hb
  have hmn : 0 ≤ (a + b - 1) % b := Int.emod_nonneg _ (by omega)
  have hdm := Int.ediv_add_emod (a + b - 1) b
  have hsub : b * ((a + b - 1) / b - 1) = b * ((a + b - 1) / b) - b := by ring
  constructor
  · linarith
  · rw [hsub]; linarith

/-- `divUp a b` is nonnegative for `0 ≤ a`, `0 < b`. -/
theorem divUp_nonneg (a b : Int) (ha : 0 ≤ a) (hb : 0 < b) :
    0 ≤ divUp a b := by
  have h := (divUp_ceil a b ha hb).1
  nlinarith

/-- C2: for nonnegative price and outbound amount and positive units,
`inboundFromOutbound` returns the up-rounded
`ceil(ceil(outbound * outboundUnit * price / 2^128) / inboundUnit)` —
both stages are least upper integer quotients, never rounded down — and
throws `OfferAmountOverflowError` exactly when that value does not fit in
48 unsigned bits. -/
theorem c2_inboundFromOutbound_ceil (price outbound outboundUnit inboundUnit : Int)
    (hp : 0 ≤ price) (ho : 0 ≤ outbound) (huo : 0 < outboundUnit)
    (hui : 0 < inboundUnit) :
    (outbound * outboundUnit * price ≤
        2 ^ 128 * divUp (outbound * outboundUnit * price) (2 ^ 128) ∧
      2 ^ 128 * (divUp (outbound * outboundUnit * price) (2 ^ 128) - 1) <
        outbound * outboundUnit * price) ∧
    (divUp (outbound * outboundUnit * price) (2 ^ 128) ≤
        inboundUnit *
          divUp (divUp (outbound * outboundUnit * price) (2 ^ 128)) inboundUnit ∧
      inboundUnit *
          (divUp (divUp (outbound * outboundUnit * price) (2 ^ 128)) inboundUnit - 1) <
        divUp (outbound * outboundUnit * price) (2 ^ 128)) ∧
    inboundFromOutboundFn price outbound outboundUnit inboundUnit =
      (if divUp (divUp (outbound * outboundUnit * price) (2 ^ 128)) inboundUnit < 2 ^ 48
       then .ok (divUp (divUp (outbound * outboundUnit * price) (2 ^ 128)) inboundUnit)
       else .error (.offerAmountOverflow
         (divUp (divUp (outbound * outboundUnit * price) (2 ^ 128)) inboundUnit)
         "inbound")) := by
  have hx : 0 ≤ outbound * outboundUnit * price := by positivity
  have h1 := divUp_ceil (outbound * outboundUnit * price) (2 ^ 128) hx (by positivity)
  have hm : 0 ≤ divUp (outbound * outboundUnit * price) (2 ^ 128) :=
    divUp_nonneg _ _ hx (by positivity)
  have h2 := divUp_ceil (divUp (outbound * outboundUnit * price) (2 ^ 128))
    inboundUnit hm hui
  have hr : 0 ≤ divUp (divUp (outbound * outboundUnit * price) (2 ^ 128)) inboundUnit :=
    divUp_nonneg _ _ hm hui
  refine ⟨h1, h2, ?_⟩
  unfold inboundFromOutboundFn Offer.checkOfferAmount
  split
  · rename_i hlt
    have hc : checkFitsWithin
        (divUp (divUp (outbound * outboundUnit * price) (2 ^ 128)) inboundUnit)
        OFFER_AMOUNT_BITS = true := by
      rw [checkFitsWithin_iff]
      exact ⟨hr, by simpa [OFFER_AMOUNT_BITS] using hlt⟩
    have hcond : (!checkFitsWithin
        (divUp (divUp (outbound * outboundUnit * price) (2 ^ 128)) inboundUnit)
        OFFER_AMOUNT_BITS) ≠ true := by
      rw [hc]
      decide
    rw [if_neg hcond]
  · rename_i hge
    push_neg at hge
    have hc : checkFitsWithin
        (divUp (divUp (outbound * outboundUnit * price) (2 ^ 128)) inboundUnit)
        OFFER_AMOUNT_BITS = false := by
      rw [Bool.eq_false_iff, ne_eq, checkFitsWithin_iff]
      intro ⟨_, hlt⟩
      simp only [OFFER_AMOUNT_BITS] at hlt
      omega
    have hcond : (!checkFitsWithin
        (divUp (divUp (outbound * outboundUnit * price) (2 ^ 128)) inboundUnit)
        OFFER_AMOUNT_BITS) = true := by
      rw [hc]
      rfl
    rw [if_pos hcond]

theorem c2_inboundFromOutbound_ceil_witness :
    (0 : Int) ≤ 2 ^ 128 ∧ (0 : Int) ≤ 3 ∧ (0 : Int) < 1 ∧
      inboundFromOutboundFn (2 ^ 128) 3 1 1 = .ok 3 := by
  refine ⟨by norm_num, by norm_num, by norm_num, ?_⟩
  have h := (c2_inboundFromOutbound_ceil (2 ^ 128) 3 1 1 (by norm_num)
    (by norm_num) (by norm_num) (by norm_num)).2.2
  rw [h]
  rw [if_pos (by decide)]
  decide

/-! ## C6: tick construction truncates toward zero, then range-checks the
truncated value -/

/-- C6: for any spacing in `[1, 65535]`, `Tick.fromValue` stores
`tickSpacing * (tick / tickSpacing)` with the division truncated toward
zero, and fails with `TickOverflowError` exactly when that truncated value
leaves `[-8388607, 8388607]`; the second and third conjuncts pin the
division down as truncation toward zero. -/
theorem c6_tick_fromValue_truncates (t s : Int) (h1 : 1 ≤ s) (h2 : s ≤ 65535) :
    (Tick.fromValue t s =
      if -8388607 ≤ s * Int.tdiv t s ∧ s * Int.tdiv t s ≤ 8388607
      then .ok ⟨s * Int.tdiv t s, s⟩
      else .error (.tickOverflow (s * Int.tdiv t s))) ∧
    (0 ≤ t → s * Int.tdiv t s ≤ t ∧ t < s * Int.tdiv t s + s) ∧
    (t ≤ 0 → t ≤ s * Int.tdiv t s ∧ s * Int.tdiv t s - s < t) := by
  have hs0 : (0 : Int) < s := by omega
  refine ⟨?_, ?_, ?_⟩
  · unfold Tick.fromValue
    have hsp : Market.checkTickSpacing s = true := by
      unfold Market.checkTickSpacing MIN_TICK_SPACING MAX_TICK_SPACING
      simp only [Bool.and_eq_true, decide_eq_true_iff]
      omega
    rw [if_neg (by rw [hsp]; decide)]
    by_cases hin : -8388607 ≤ s * Int.tdiv t s ∧ s * Int.tdiv t s ≤ 8388607
    · rw [if_pos hin]
      have hck : Tick.checkTick (s * Int.tdiv t s) = true := by
        unfold Tick.checkTick MIN_TICK MAX_TICK
        simp only [Bool.and_eq_true, decide_eq_true_iff]
        omega
      rw [if_neg (by rw [hck]; decide)]
    · rw [if_neg hin]
      have hck : Tick.checkTick (s * Int.tdiv t s) = false := by
        unfold Tick.checkTick MIN_TICK MAX_TICK
        simp only [Bool.and_eq_false_iff, decide_eq_false_iff_not]
        omega
      rw [if_pos (by rw [hck]; rfl)]
  · intro ht
    rw [Int.tdiv_eq_ediv ht (by omega)]
    have hdm := Int.ediv_add_emod t s
    have hm1 := Int.emod_nonneg t (by omega : s ≠ 0)
    have hm2 := Int.emod_lt_of_pos t hs0
    omega
  · intro ht
    have hneg : Int.tdiv t s = -Int.tdiv (-t) s := by
      rw [Int.neg_tdiv, neg_neg]
    rw [hneg]
    rw [Int.tdiv_eq_ediv (by omega) (by omega)]
    have hdm := Int.ediv_add_emod (-t) s
    have hm1 := Int.emod_nonneg (-t) (by omega : s ≠ 0)
    have hm2 := Int.emod_lt_of_pos (-t) hs0
    have hexp : s * -((-t) / s) = -(s * ((-t) / s)) := by ring
    rw [hexp]
    omega

theorem c6_tick_fromValue_truncates_witness :
    (1 : Int) ≤ 5 ∧ (5 : Int) ≤ 65535 ∧
      Tick.fromValue 13 5 = .ok ⟨10, 5⟩ ∧
      Tick.fromValue (-13) 5 = .ok ⟨-10, 5⟩ ∧
      Tick.fromValue 8388609 5 = .ok ⟨8388605, 5⟩ := by
  refine ⟨by norm_num, by norm_num, ?_, by decide, by decide⟩
  have h := (c6_tick_fromValue_truncates 13 5 (by norm_num) (by norm_num)).1
  rw [h, if_pos (by decide)]
  decide

/-! ## C7: the `TokenAmount` truncation invariant -/

/-- The raw `amount` setter establishes the stored-amount invariant:
the stored raw amount is a multiple of the unit, nonnegative, below
`2^256`, the truncation only moves down by less than one unit, and
re-running the setter on the stored value is a no-op. -/
theorem setAmount_invariant (ta : TokenAmount) (v : Int) (ta' : TokenAmount)
    (hu : 0 < ta.token.unit) (h : ta.setAmount v = .ok ta') :
    ta'.token = ta.token ∧ Int.emod ta'.amount ta.token.unit = 0 ∧
      0 ≤ ta'.amount ∧ ta'.amount < 2 ^ 256 ∧ ta'.amount ≤ v ∧
      v < ta'.amount + ta.token.unit ∧ ta'.setAmount ta'.amount = .ok ta' := by
  unfold TokenAmount.setAmount at h
  by_cases hfit : checkFitsWithin v 256 = true
  · rw [if_neg (by rw [hfit]; decide)] at h
    have hv := (checkFitsWithin_iff v 256).mp hfit
    injection h with h
    subst h
    have htm : Int.tmod v ta.token.unit = v % ta.token.unit :=
      Int.tmod_eq_emod hv.1 (by omega)
    have hm1 := Int.emod_nonneg v (by omega : ta.token.unit ≠ 0)
    have hm2 := Int.emod_lt_of_pos v hu
    have hdm := Int.ediv_add_emod v ta.token.unit
    have hq : 0 ≤ v / ta.token.unit := Int.ediv_nonneg hv.1 (by omega)
    have hqq : 0 ≤ ta.token.unit * (v / ta.token.unit) := by positivity
    refine ⟨rfl, ?_, by simp only [htm]; omega, by simp only [htm]; omega,
      by simp only [htm]; omega, by simp only [htm]; omega, ?_⟩
    · show Int.emod (v - Int.tmod v ta.token.unit) ta.token.unit = 0
      rw [htm, show v - v % ta.token.unit = ta.token.unit * (v / ta.token.unit) from by omega]
      exact Int.mul_emod_right _ _
    · show TokenAmount.setAmount _ _ = _
      unfold TokenAmount.setAmount
      have hW : v - Int.tmod v ta.token.unit = ta.token.unit * (v / ta.token.unit) := by
        rw [htm]; omega
      have hfit2 : checkFitsWithin (v - Int.tmod v ta.token.unit) 256 = true := by
        rw [checkFitsWithin_iff]
        constructor
        · rw [hW]; positivity
        · rw [htm]; omega
      rw [if_neg (by rw [hfit2]; decide)]
      have hz : Int.tmod (v - Int.tmod v ta.token.unit) ta.token.unit = 0 := by
        rw [Int.tmod_eq_emod (by rw [hW]; positivity) (by omega), hW]
        exact Int.mul_emod_right _ _
      simp only [hz, sub_zero]
  · rw [if_pos (by rw [Bool.not_eq_true] at hfit; rw [hfit]; rfl)] at h
    cases h

/-- C7: through the raw setter, the normalized setter, the string setter
and the constructor, every successfully stored raw amount is a multiple of
the token unit (truncated down by less than one unit), fits in 256 bits,
and re-assigning the stored amount is a no-op. -/
theorem c7_tokenAmount_truncation_invariant (ta : TokenAmount) (v : Int)
    (hu : 0 < ta.token.unit) :
    (∀ ta', ta.setAmount v = .ok ta' →
      Int.emod ta'.amount ta.token.unit = 0 ∧ 0 ≤ ta'.amount ∧
        ta'.amount < 2 ^ 256 ∧ ta'.amount ≤ v ∧ v < ta'.amount + ta.token.unit ∧
        ta'.setAmount ta'.amount = .ok ta') ∧
    (∀ ta', ta.setNormalizedAmount v = .ok ta' →
      Int.emod ta'.amount ta.token.unit = 0 ∧ 0 ≤ ta'.amount ∧
        ta'.amount < 2 ^ 256 ∧ ta'.setAmount ta'.amount = .ok ta') ∧
    (∀ ta', ta.setAmountString v = .ok ta' →
      Int.emod ta'.amount ta.token.unit = 0 ∧ 0 ≤ ta'.amount ∧
        ta'.amount < 2 ^ 256 ∧ ta'.setAmount ta'.amount = .ok ta') ∧
    (∀ ta', TokenAmount.fromRaw v ta.token = .ok ta' →
      Int.emod ta'.amount ta.token.unit = 0 ∧ 0 ≤ ta'.amount ∧
        ta'.amount < 2 ^ 256 ∧ ta'.setAmount ta'.amount = .ok ta') := by
  refine ⟨?_, ?_, ?_, ?_⟩
  · intro ta' h
    have hi := setAmount_invariant ta v ta' hu h
    exact ⟨hi.2.1, hi.2.2.1, hi.2.2.2.1, hi.2.2.2.2.1, hi.2.2.2.2.2.1, hi.2.2.2.2.2.2⟩
  · intro ta' h
    have hi := setAmount_invariant ta (v * ta.token.unit) ta' hu h
    exact ⟨hi.2.1, hi.2.2.1, hi.2.2.2.1, hi.2.2.2.2.2.2⟩
  · intro ta' h
    have hi := setAmount_invariant ta v ta' hu h
    exact ⟨hi.2.1, hi.2.2.1, hi.2.2.2.1, hi.2.2.2.2.2.2⟩
  · intro ta' h
    have hi := setAmount_invariant ⟨v, ta.token⟩ v ta' hu h
    exact ⟨hi.2.1, hi.2.2.1, hi.2.2.2.1, hi.2.2.2.2.2.2⟩

theorem c7_tokenAmount_truncation_invariant_witness :
    (0 : Int) < 7 ∧
      (TokenAmount.setAmount ⟨0, ⟨0, 6, "USDC", 7⟩⟩ 23 = .ok ⟨21, ⟨0, 6, "USDC", 7⟩⟩ →
        Int.emod (21 : Int) 7 = 0 ∧ (0 : Int) ≤ 21 ∧ (21 : Int) < 2 ^ 256 ∧
          (21 : Int) ≤ 23 ∧ (23 : Int) < 21 + 7 ∧
          TokenAmount.setAmount ⟨21, ⟨0, 6, "USDC", 7⟩⟩ 21 = .ok ⟨21, ⟨0, 6, "USDC", 7⟩⟩) := by
  refine ⟨by norm_num, fun h => ?_⟩
  exact (c7_tokenAmount_truncation_invariant ⟨0, ⟨0, 6, "USDC", 7⟩⟩ 23 (by norm_num)).1
    ⟨21, ⟨0, 6, "USDC", 7⟩⟩ h

/-! ## C8: `unpackOffer` is total and decodes the declared bit layout -/

/-- C8: for every 256-bit word, the (total) `unpackOffer` decodes the
most-significant-first layout `prev`(40) `next`(40) `expiry`(32)
`gives`(48) `received`(48) `tick`(24, sign-extended) `provision`(23)
`isActive`(1): each field is the unsigned `(w / 2^offset) mod 2^width`
extraction, tick is two's-complement sign-extended, and a zero expiry
decodes to no expiry. -/
theorem c8_unpackOffer_layout (w : Nat) (hw : w < 2 ^ 256) :
    unpackOffer w = unpackOfferLayout w := by
  have hmask : ∀ (sh k : Nat), (w >>> sh) &&& (2 ^ k - 1) = w / 2 ^ sh % 2 ^ k := by
    intro sh k
    rw [Nat.shiftRight_eq_div_pow, Nat.and_pow_two_sub_one_eq_mod]
  have h40 : (0xffffffffff : Nat) = 2 ^ 40 - 1 := by norm_num
  have h32 : (0xffffffff : Nat) = 2 ^ 32 - 1 := by norm_num
  have h48 : (0xffffffffffff : Nat) = 2 ^ 48 - 1 := by norm_num
  have h24 : (0xffffff : Nat) = 2 ^ 24 - 1 := by norm_num
  have h23 : (0x7fffff : Nat) = 2 ^ 23 - 1 := by norm_num
  unfold unpackOffer unpackOfferLayout asIntN24
  unfold PREV_MASK NEXT_MASK EXPIRY_MASK GIVES_MASK RECEIVED_MASK TICK_MASK
    PROVISION_MASK IS_ACTIVE_MASK PREV_SHIFT NEXT_SHIFT EXPIRY_SHIFT GIVES_SHIFT
    RECEIVED_SHIFT TICK_SHIFT PROVISION_SHIFT IS_ACTIVE_SHIFT
  rw [h40, h32, h48, h24, h23]
  rw [hmask 216 40, hmask 176 40, hmask 144 32, hmask 96 48, hmask 48 48,
    hmask 24 24, hmask 1 23]
  simp only [Nat.shiftRight_zero, Nat.and_one_is_mod, pow_one, beq_iff_eq]

theorem c8_unpackOffer_layout_witness :
    (2 ^ 216 + 2 * 2 ^ 176 + 3 * 2 ^ 96 + 4 * 2 ^ 48 + (2 ^ 24 - 5) * 2 ^ 24 +
        6 * 2 + 1 : Nat) < 2 ^ 256 ∧
      unpackOffer (2 ^ 216 + 2 * 2 ^ 176 + 3 * 2 ^ 96 + 4 * 2 ^ 48 +
          (2 ^ 24 - 5) * 2 ^ 24 + 6 * 2 + 1) =
        unpackOfferLayout (2 ^ 216 + 2 * 2 ^ 176 + 3 * 2 ^ 96 + 4 * 2 ^ 48 +
          (2 ^ 24 - 5) * 2 ^ 24 + 6 * 2 + 1) ∧
      unpackOffer (2 ^ 216 + 2 * 2 ^ 176 + 3 * 2 ^ 96 + 4 * 2 ^ 48 +
          (2 ^ 24 - 5) * 2 ^ 24 + 6 * 2 + 1) =
        ⟨1, 2, none, 3, 4, -5, 6, true⟩ :=
  ⟨by norm_num,
   c8_unpackOffer_layout _ (by norm_num),
   by decide⟩

/-! ## C4: the fee round trip `excludingFees` then `computeFees` -/

/-- `Except.ok v >>= f` reduces. -/
theorem exceptOkBind {α β γ : Type} (v : α) (f : α → Except γ β) :
    (Except.ok v >>= f) = f v := rfl

/-- Evaluation of `TokenAmount.fromRaw` on an in-range multiple of the
unit. -/
theorem fromRaw_of_mult (v : Int) (tok : Token) (hu : 0 < tok.unit)
    (h0 : 0 ≤ v) (h256 : v < 2 ^ 256) (hm : v % tok.unit = 0) :
    TokenAmount.fromRaw v tok = .ok ⟨v, tok⟩ := by
  unfold TokenAmount.fromRaw TokenAmount.setAmount
  have hfit : checkFitsWithin v 256 = true := (checkFitsWithin_iff v 256).mpr ⟨h0, h256⟩
  rw [if_neg (by rw [hfit]; decide)]
  rw [Int.tmod_eq_emod h0 (le_of_lt hu), hm, sub_zero]

/-- C4 counterexample: with a unit-1 token, a raw amount of 16 and the
maximal 16-bit fee rate 65535, `excludingFees` yields 14 and
`computeFees` of 14 yields 0, so the round trip loses 2 units — more
than the claimed `token.unit` tolerance of 1. -/
theorem c4_fee_roundtrip_counterexample :
    Market.excludingFeesTA ⟨16, ⟨0, 0, "T", 1⟩⟩ ⟨0, 0, "T", 1⟩ 65535 =
        .ok ⟨14, ⟨0, 0, "T", 1⟩⟩ ∧
      Market.computeFeesTA ⟨0, 0, "T", 1⟩ ⟨14, ⟨0, 0, "T", 1⟩⟩ 65535 none =
        .ok ⟨0, Token.withUnit ⟨0, 0, "T", 1⟩ 1⟩ ∧
      ¬ (|(16 : Int) - (14 + 0)| ≤ (1 : Int)) := by
  refine ⟨by decide, by decide, by decide⟩

/-- C4 (amended): for any valid `TokenAmount` (a nonnegative 256-bit
multiple of the unit) and any fee rate in `[0, 65535]`, the round trip
`excludingFees` then `computeFees` under-reconstructs the original raw
amount by at least 0 and at most `2 * token.unit`. -/
theorem c4_fee_roundtrip_within_two_units (a net fee : TokenAmount)
    (tok : Token) (f : Int) (hu : 0 < tok.unit) (hf0 : 0 ≤ f)
    (hf : f ≤ 65535) (ha : a.token = tok)
    (hmul : a.amount % tok.unit = 0) (h0 : 0 ≤ a.amount)
    (h256 : a.amount < 2 ^ 256)
    (hnet : Market.excludingFeesTA a tok f = .ok net)
    (hfee : Market.computeFeesTA tok net f none = .ok fee) :
    0 ≤ a.amount - (net.amount + fee.amount) ∧
      a.amount - (net.amount + fee.amount) ≤ 2 * tok.unit := by
  have hD : FEE_DENOMINATOR = (1000000 : Int) := rfl
  have hg0 : (0 : Int) < FEE_DENOMINATOR - f := by rw [hD]; omega
  -- the normalized amount and its defining equation
  have hn0 : 0 ≤ a.normalizedAmount := by
    unfold TokenAmount.normalizedAmount
    rw [Int.tdiv_eq_ediv h0 (by rw [ha]; omega), ha]
    exact Int.ediv_nonneg h0 (by omega)
  have hna : tok.unit * a.normalizedAmount = a.amount := by
    unfold TokenAmount.normalizedAmount
    rw [Int.tdiv_eq_ediv h0 (by rw [ha]; omega), ha]
    have := Int.ediv_add_emod a.amount tok.unit
    omega
  -- evaluate `excludingFees`
  have hgd : (a.token.address == tok.address) = true := by
    rw [ha]
    exact beq_self_eq_true _
  have hcopy : a.copy = .ok ⟨a.amount, a.token⟩ := by
    unfold TokenAmount.copy
    have := fromRaw_of_mult a.amount tok hu h0 h256 hmul
    rw [ha]
    exact this
  unfold Market.excludingFeesTA at hnet
  rw [if_neg (by rw [hgd]; decide)] at hnet
  rw [hcopy, exceptOkBind] at hnet
  -- the net normalized amount q
  set q := Int.tdiv (a.normalizedAmount * (FEE_DENOMINATOR - f)) FEE_DENOMINATOR with hqdef
  have hq : q = a.normalizedAmount * (FEE_DENOMINATOR - f) / FEE_DENOMINATOR := by
    rw [hqdef, Int.tdiv_eq_ediv (by positivity) (by rw [hD]; omega)]
  have hq0 : 0 ≤ q := by
    rw [hq]
    exact Int.ediv_nonneg (by positivity) (by rw [hD]; omega)
  have hqn : q ≤ a.normalizedAmount := by
    rw [hq]
    calc a.normalizedAmount * (FEE_DENOMINATOR - f) / FEE_DENOMINATOR
        ≤ a.normalizedAmount * FEE_DENOMINATOR / FEE_DENOMINATOR := by
          apply Int.ediv_le_ediv (by rw [hD]; omega)
          nlinarith
      _ = a.normalizedAmount := Int.mul_ediv_cancel _ (by rw [hD]; omega)
  have hqu : q * tok.unit ≤ a.amount := by
    calc q * tok.unit ≤ a.normalizedAmount * tok.unit := by nlinarith
      _ = a.amount := by rw [mul_comm]; exact hna
  unfold TokenAmount.setNormalizedAmount TokenAmount.setAmount at hnet
  have hfitq : checkFitsWithin (q * tok.unit) 256 = true := by
    rw [checkFitsWithin_iff]
    constructor
    · positivity
    · omega
  rw [show (⟨a.amount, a.token⟩ : TokenAmount).token = tok from by rw [ha]] at hnet
  rw [if_neg (by rw [hfitq]; decide)] at hnet
  have htmq : Int.tmod (q * tok.unit) tok.unit = 0 := by
    rw [Int.tmod_eq_emod (by positivity) (le_of_lt hu), mul_comm,
      Int.mul_emod_right]
  rw [htmq, sub_zero] at hnet
  injection hnet with hnet
  -- evaluate `computeFees`
  have hnetamt : net.amount = q * tok.unit := by rw [← hnet]
  have hnettok : net.token = tok := by rw [← hnet]
  unfold Market.computeFeesTA at hfee
  rw [show (net.token.address == tok.address) = true from by
    rw [hnettok]; exact beq_self_eq_true _] at hfee
  set φ := Int.tdiv (net.amount * f) (FEE_DENOMINATOR - f) with hpdef
  replace hfee : TokenAmount.fromRaw φ (tok.withUnit 1) = .ok fee := hfee
  have hp : φ = net.amount * f / (FEE_DENOMINATOR - f) := by
    rw [hpdef, Int.tdiv_eq_ediv (by rw [hnetamt]; positivity) (by omega)]
  have hp0 : 0 ≤ φ := by
    rw [hp]
    exact Int.ediv_nonneg (by rw [hnetamt]; positivity) (by omega)
  have hpb : φ ≤ net.amount := by
    rw [hp]
    calc net.amount * f / (FEE_DENOMINATOR - f)
        ≤ net.amount * (FEE_DENOMINATOR - f) / (FEE_DENOMINATOR - f) := by
          apply Int.ediv_le_ediv hg0
          have hnn : 0 ≤ net.amount := by rw [hnetamt]; positivity
          nlinarith [hD]
      _ = net.amount := Int.mul_ediv_cancel _ (by omega)
  have hfr : TokenAmount.fromRaw φ (tok.withUnit 1) = .ok ⟨φ, tok.withUnit 1⟩ := by
    apply fromRaw_of_mult
    · show (0 : Int) < 1
      omega
    · exact hp0
    · have : net.amount < 2 ^ 256 := by rw [hnetamt]; omega
      omega
    · show φ % (1 : Int) = 0
      exact Int.emod_one φ
  rw [hfr] at hfee
  injection hfee with hfee
  have hfeeamt : fee.amount = φ := by rw [← hfee]
  -- the rounding algebra
  rw [hnetamt, hfeeamt]
  obtain ⟨u, hu', hmulU, h0U, hnaU⟩ :
      ∃ u : Int, 0 < u ∧ a.amount % u = 0 ∧ 0 ≤ a.amount ∧
        u * a.normalizedAmount = a.amount := ⟨tok.unit, hu, hmul, h0, hna⟩
  set n := a.normalizedAmount with hndef
  set D := FEE_DENOMINATOR with hDdef
  set g := D - f with hgdef
  have hr1 := Int.ediv_add_emod (n * g) D
  have hr0 : 0 ≤ n * g % D := Int.emod_nonneg _ (by omega)
  have hrD : n * g % D < D := Int.emod_lt_of_pos _ (by omega)
  have hs1 := Int.ediv_add_emod (net.amount * f) g
  have hs0 : 0 ≤ net.amount * f % g := Int.emod_nonneg _ (by omega)
  have hsg : net.amount * f % g < g := Int.emod_lt_of_pos _ hg0
  rw [hq] at hnet ⊢
  rw [hp]
  set r := n * g % D with hrdef
  set s := net.amount * f % g with hsdef
  set Q := n * g / D with hQdef
  set P := net.amount * f / g with hPdef
  -- key identity: g * (a - net - fee) = unit * r + s
  have hkey : g * (a.amount - (Q * tok.unit + P)) = tok.unit * r + s := by
    have e1 : D * Q = n * g - r := by omega
    have e2 : g * P = net.amount * f - s := by omega
    have e3 : net.amount = Q * tok.unit := by rw [hnetamt, hq]
    calc g * (a.amount - (Q * tok.unit + P))
        = g * a.amount - g * (Q * tok.unit) - g * P := by ring
      _ = g * a.amount - g * (Q * tok.unit) - (Q * tok.unit * f - s) := by
          rw [e2, e3]
      _ = g * a.amount - (g + f) * (Q * tok.unit) + s := by ring
      _ = g * a.amount - D * (Q * tok.unit) + s := by rw [hgdef]; ring_nf
      _ = g * a.amount - (n * g - r) * tok.unit + s := by
          rw [show D * (Q * tok.unit) = (D * Q) * tok.unit from by ring, e1]
      _ = g * (a.amount - n * tok.unit) + tok.unit * r + s := by ring
      _ = tok.unit * r + s := by
          rw [show a.amount - n * tok.unit = 0 from by
            rw [mul_comm n tok.unit]; omega]
          ring
  have hu0 : (0 : Int) ≤ tok.unit := le_of_lt hu
  have hur : 0 ≤ tok.unit * r := mul_nonneg hu0 hr0
  constructor
  · have hX : g * 0 ≤ g * (a.amount - (Q * tok.unit + P)) := by
      rw [mul_zero, hkey]
      omega
    exact le_of_mul_le_mul_left hX hg0
  · have m1 : tok.unit * r ≤ tok.unit * (D - 1) :=
      mul_le_mul_of_nonneg_left (by omega) hu0
    have m2 : tok.unit * (D - 1) ≤ tok.unit * (2 * g) :=
      mul_le_mul_of_nonneg_left (by omega) hu0
    have hex : g * (2 * tok.unit + 1) = tok.unit * (2 * g) + g := by ring
    have hgX : g * (a.amount - (Q * tok.unit + P)) < g * (2 * tok.unit + 1) := by
      rw [hkey, hex]
      omega
    have := lt_of_mul_lt_mul_left hgX (le_of_lt hg0)
    omega

theorem c4_fee_roundtrip_within_two_units_witness :
    (0 : Int) < (⟨0, 0, "T", 1⟩ : Token).unit ∧
      (0 ≤ (⟨16, ⟨0, 0, "T", 1⟩⟩ : TokenAmount).amount -
          ((⟨14, ⟨0, 0, "T", 1⟩⟩ : TokenAmount).amount +
            (⟨0, Token.withUnit ⟨0, 0, "T", 1⟩ 1⟩ : TokenAmount).amount) ∧
        (⟨16, ⟨0, 0, "T", 1⟩⟩ : TokenAmount).amount -
            ((⟨14, ⟨0, 0, "T", 1⟩⟩ : TokenAmount).amount +
              (⟨0, Token.withUnit ⟨0, 0, "T", 1⟩ 1⟩ : TokenAmount).amount) ≤
          2 * (⟨0, 0, "T", 1⟩ : Token).unit) :=
  ⟨by decide,
   c4_fee_roundtrip_within_two_units ⟨16, ⟨0, 0, "T", 1⟩⟩ ⟨14, ⟨0, 0, "T", 1⟩⟩
     ⟨0, Token.withUnit ⟨0, 0, "T", 1⟩ 1⟩ ⟨0, 0, "T", 1⟩ 65535 (by decide)
     (by decide) (by decide) rfl (by decide) (by decide) (by decide)
     (by decide) (by decide)⟩

/-! ## C5: the price ladder under tick negation -/

/-- A 128.128 fixed-point multiply by a constant at most `2^128` does not
increase the value. -/
theorem mulShift_le_self (p c : Nat) (hc : c ≤ 2 ^ 128) :
    (p * c) >>> 128 ≤ p := by
  rw [Nat.shiftRight_eq_div_pow]
  calc p * c / 2 ^ 128 ≤ p * 2 ^ 128 / 2 ^ 128 :=
        Nat.div_le_div_right (mul_le_mul_left' hc p)
    _ = p := Nat.mul_div_cancel p (by positivity)

/-- One conditional step of the `tickToPrice` chain does not increase the
running product. -/
theorem step_le (cond : Prop) [Decidable cond] (p c : Nat) (hc : c ≤ 2 ^ 128) :
    (if cond then (p * c) >>> 128 else p) ≤ p := by
  split
  · exact mulShift_le_self p c hc
  · exact le_refl p

/-- One conditional step of the chain is bounded below by the
unconditional step from any lower bound. -/
theorem step_ge (cond : Prop) [Decidable cond] (p q c : Nat) (hq : q ≤ p)
    (hc : c ≤ 2 ^ 128) :
    (q * c) >>> 128 ≤ (if cond then (p * c) >>> 128 else p) := by
  split
  · rw [Nat.shiftRight_eq_div_pow, Nat.shiftRight_eq_div_pow]
    exact Nat.div_le_div_right (mul_le_mul_right' hq c)
  · exact le_trans (mulShift_le_self q c hc) hq

/-- The 23-step product is at most the starting value `2^128`. -/
theorem tickProduct_le (a : Nat) : tickProduct a ≤ 2 ^ 128 := by
  unfold tickProduct
  dsimp only
  refine le_trans (step_le _ _ _ (by norm_num)) ?_
  refine le_trans (step_le _ _ _ (by norm_num)) ?_
  refine le_trans (step_le _ _ _ (by norm_num)) ?_
  refine le_trans (step_le _ _ _ (by norm_num)) ?_
  refine le_trans (step_le _ _ _ (by norm_num)) ?_
  refine le_trans (step_le _ _ _ (by norm_num)) ?_
  refine le_trans (step_le _ _ _ (by norm_num)) ?_
  refine le_trans (step_le _ _ _ (by norm_num)) ?_
  refine le_trans (step_le _ _ _ (by norm_num)) ?_
  refine le_trans (step_le _ _ _ (by norm_num)) ?_
  refine le_trans (step_le _ _ _ (by norm_num)) ?_
  refine le_trans (step_le _ _ _ (by norm_num)) ?_
  refine le_trans (step_le _ _ _ (by norm_num)) ?_
  refine le_trans (step_le _ _ _ (by norm_num)) ?_
  refine le_trans (step_le _ _ _ (by norm_num)) ?_
  refine le_trans (step_le _ _ _ (by norm_num)) ?_
  refine le_trans (step_le _ _ _ (by norm_num)) ?_
  refine le_trans (step_le _ _ _ (by norm_num)) ?_
  refine le_trans (step_le _ _ _ (by norm_num)) ?_
  refine le_trans (step_le _ _ _ (by norm_num)) ?_
  refine le_trans (step_le _ _ _ (by norm_num)) ?_
  refine le_trans (step_le _ _ _ (by norm_num)) ?_
  split
  · norm_num
  · exact le_refl _

/-- The 23-step product is at least the all-bits-set product (the product
at `|tick| = 8388607`), which is 126. -/
theorem tickProduct_ge (a : Nat) : 126 ≤ tickProduct a := by
  unfold tickProduct
  dsimp only
  refine le_trans (le_of_eq (by decide : (126 : Nat) = (207159111280616524004 * 0xb3ae1a60d291e4871) >>> 128)) (step_ge _ _ _ _ ?_ (by norm_num))
  refine le_trans (le_of_eq (by decide : (207159111280616524004 : Nat) = (265505739376257989819152025419 * 0x359e3010271ed5cfce08f99aa) >>> 128)) (step_ge _ _ _ _ ?_ (by norm_num))
  refine le_trans (le_of_eq (by decide : (265505739376257989819152025419 : Nat) = (9505147284248737044014433507866842 * 0x1d4a2a0310ad5f70ad53ef4d3dcf3) >>> 128)) (step_ge _ _ _ _ ?_ (by norm_num))
  refine le_trans (le_of_eq (by decide : (9505147284248737044014433507866842 : Nat) = (1798462220942227263138025004775027769 * 0x15a5e2593066b11cd1c3ea05eb95f74) >>> 128)) (step_ge _ _ _ _ ?_ (by norm_num))
  refine le_trans (le_of_eq (by decide : (1798462220942227263138025004775027769 : Nat) = (24738453896917698802531909307953103336 * 0x129c67bfc1f3084f1f52dd418a4a8f6d) >>> 128)) (step_ge _ _ _ _ ?_ (by norm_num))
  refine le_trans (le_of_eq (by decide : (24738453896917698802531909307953103336 : Nat) = (91750443195682321743558404731267951820 * 0x450650de5cb791d4a002074d7f179cb3) >>> 128)) (step_ge _ _ _ _ ?_ (by norm_num))
  refine le_trans (le_of_eq (by decide : (91750443195682321743558404731267951820 : Nat) = (176695699402253874790451154455061507407 * 0x84ee037828011d8035f12eb571b46c2a) >>> 128)) (step_ge _ _ _ _ ?_ (by norm_num))
  refine le_trans (le_of_eq (by decide : (176695699402253874790451154455061507407 : Nat) = (245208140325026268591287273143733236782 * 0xb878e5d36699c3a0fd844110d8b9945f) >>> 128)) (step_ge _ _ _ _ ?_ (by norm_num))
  refine le_trans (le_of_eq (by decide : (245208140325026268591287273143733236782 : Nat) = (288861282933773138228439291090075740402 * 0xd9501a6728f01c1f121094aacf4c9475) >>> 128)) (step_ge _ _ _ _ ?_ (by norm_num))
  refine le_trans (le_of_eq (by decide : (288861282933773138228439291090075740402 : Nat) = (313520946688628598997346733031502334922 * 0xebdd5589751f38fd7adce84988dba856) >>> 128)) (step_ge _ _ _ _ ?_ (by norm_num))
  refine le_trans (le_of_eq (by decide : (313520946688628598997346733031502334922 : Nat) = (326629326109885743780480989924786486293 * 0xf5b9e413dd1b4e7046f8f721e1f1b295) >>> 128)) (step_ge _ _ _ _ ?_ (by norm_num))
  refine le_trans (le_of_eq (by decide : (326629326109885743780480989924786486293 : Nat) = (333387629729216184700298557960025546624 * 0xfacf7ad7076227f61d95f764e8d7e35a) >>> 128)) (step_ge _ _ _ _ ?_ (by norm_num))
  refine le_trans (le_of_eq (by decide : (333387629729216184700298557960025546624 : Nat) = (336819040741072977581349640749071512808 * 0xfd6456c5e15445b458f4403d279c1a89) >>> 128)) (step_ge _ _ _ _ ?_ (by norm_num))
  refine le_trans (le_of_eq (by decide : (336819040741072977581349640749071512808 : Nat) = (338547967861596224584846542754978770321 * 0xfeb1509bdff34ccb280fad9a309403cf) >>> 128)) (step_ge _ _ _ _ ?_ (by norm_num))
  refine le_trans (le_of_eq (by decide : (338547967861596224584846542754978770321 : Nat) = (339415756616065146615734502016499590944 * 0xff5871784dc6fa608dca410bdecb9ff4) >>> 128)) (step_ge _ _ _ _ ?_ (by norm_num))
  refine le_trans (le_of_eq (by decide : (339415756616065146615734502016499590944 : Nat) = (339850484777565298726277131870886870072 * 0xffac2b0240039d9cdadb751e0acc14c4) >>> 128)) (step_ge _ _ _ _ ?_ (by norm_num))
  refine le_trans (le_of_eq (by decide : (339850484777565298726277131870886870072 : Nat) = (340068057615842361859959705488081827838 * 0xffd61212165632bd1dda4c1abdf5f9f1) >>> 128)) (step_ge _ _ _ _ ?_ (by norm_num))
  refine le_trans (le_of_eq (by decide : (340068057615842361859959705488081827838 : Nat) = (340176896263341949022632600315022744200 * 0xffeb082d36bf2958d476ee75c4da258a) >>> 128)) (step_ge _ _ _ _ ?_ (by norm_num))
  refine le_trans (le_of_eq (by decide : (340176896263341949022632600315022744200 : Nat) = (340231328649057344147855185279403827803 * 0xfff583dfa4044e3dfe90c4057e3e4c27) >>> 128)) (step_ge _ _ _ _ ?_ (by norm_num))
  refine le_trans (le_of_eq (by decide : (340231328649057344147855185279403827803 : Nat) = (340258548108016042145315759878800058829 * 0xfffac1e213e349a0cf1e3d3ec62bf25b) >>> 128)) (step_ge _ _ _ _ ?_ (by norm_num))
  refine le_trans (le_of_eq (by decide : (340258548108016042145315759878800058829 : Nat) = (340272158654096852689406215341633408444 * 0xfffd60ed9a60ebcb383de6edb7557ef0) >>> 128)) (step_ge _ _ _ _ ?_ (by norm_num))
  refine le_trans (le_of_eq (by decide : (340272158654096852689406215341633408444 : Nat) = (340278964131297150491869688734880862647 * 0xfffeb075f14b276d06cdbc6b138e4c4b) >>> 128)) (step_ge _ _ _ _ ?_ (by norm_num))
  split
  · norm_num
  · norm_num

/-- `tickToPrice` in terms of the product of the absolute tick. -/
theorem tickToPrice_eq_cases (t : Int) :
    tickToPrice t =
      if 0 < t then 2 ^ 256 / tickProduct t.natAbs else tickProduct t.natAbs := by
  unfold tickToPrice
  have habs : (if t < 0 then -t else t).toNat = t.natAbs := by
    split <;> omega
  rw [habs]

/-- C5 counterexample: at tick 1 the product
`tickToPrice(1) * tickToPrice(-1)` falls short of `2^256` by far more
than 1 unit, refuting the literal one-unit reading. -/
theorem c5_tick_negation_counterexample :
    tickToPrice 1 * tickToPrice (-1) + 1 < 2 ^ 256 := by decide

/-- C5 (amended): for every tick in range, the product
`tickToPrice(t) * tickToPrice(-t)` approximates `2^256` from below,
within one unit of the integer division's granularity: it never exceeds
`2^256` and falls short by strictly less than `tickToPrice(-|t|)` (the
divisor of the inverted side), i.e. the inverted price is the exact
floor quotient. -/
theorem c5_tick_negation_inverse (t : Int) (h1 : MIN_TICK ≤ t)
    (h2 : t ≤ MAX_TICK) :
    tickToPrice t * tickToPrice (-t) ≤ 2 ^ 256 ∧
      2 ^ 256 < tickToPrice t * tickToPrice (-t) +
        tickToPrice (-(t.natAbs : Int)) := by
  have hp1 : 1 ≤ tickProduct t.natAbs :=
    le_trans (by norm_num) (tickProduct_ge t.natAbs)
  rcases lt_trichotomy t 0 with ht | ht | ht
  · rw [tickToPrice_eq_cases t, tickToPrice_eq_cases (-t),
      tickToPrice_eq_cases (-(t.natAbs : Int))]
    rw [if_neg (by omega), if_pos (by omega), if_neg (by omega)]
    rw [Int.natAbs_neg, Int.natAbs_neg, Int.natAbs_ofNat]
    constructor
    · rw [mul_comm]
      exact Nat.div_mul_le_self _ _
    · have hdm := Nat.div_add_mod (2 ^ 256) (tickProduct t.natAbs)
      have hml := Nat.mod_lt (2 ^ 256) (show 0 < tickProduct t.natAbs by omega)
      rw [mul_comm]
      linarith
  · subst ht
    exact ⟨by decide, by decide⟩
  · rw [tickToPrice_eq_cases t, tickToPrice_eq_cases (-t),
      tickToPrice_eq_cases (-(t.natAbs : Int))]
    rw [if_pos ht, if_neg (by omega), if_neg (by omega)]
    rw [Int.natAbs_neg, Int.natAbs_neg, Int.natAbs_ofNat]
    constructor
    · exact Nat.div_mul_le_self _ _
    · have hdm := Nat.div_add_mod (2 ^ 256) (tickProduct t.natAbs)
      have hml := Nat.mod_lt (2 ^ 256) (show 0 < tickProduct t.natAbs by omega)
      linarith

theorem c5_tick_negation_inverse_witness :
    MIN_TICK ≤ (1 : Int) ∧ (1 : Int) ≤ MAX_TICK ∧
      (tickToPrice 1 * tickToPrice (-1) ≤ 2 ^ 256 ∧
        2 ^ 256 < tickToPrice 1 * tickToPrice (-1) +
          tickToPrice (-((1 : Int).natAbs : Int))) :=
  ⟨by decide, by decide, c5_tick_negation_inverse 1 (by decide) (by decide)⟩

/-! ## Frame reasoning for the store semantics -/

/-- Destructuring a successful `Except` bind. -/
theorem okOfBind {α β γ : Type} {x : Except γ α} {f : α → Except γ β} {v : β}
    (h : (x >>= f) = .ok v) : ∃ a, x = .ok a ∧ f a = .ok v := by
  cases x with
  | error e => exact absurd h (by intro hc; cases hc)
  | ok a => exact ⟨a, rfl, h⟩

theorem getD_set_ne (l : List Int) (n m : Nat) (a : Int) (h : n ≠ m) :
    (l.set n a).getD m 0 = l.getD m 0 := by
  unfold List.getD
  rw [List.get?_set_ne _ _ h]

theorem getD_append_left (l t : List Int) (i : Nat) (h : i < l.length) :
    (l ++ t).getD i 0 = l.getD i 0 := by
  unfold List.getD
  rw [List.get?_append h]

/-- The store grew (cells are never deallocated) and every cell below `n`
holds its old value. -/
def FrameGe (n : Nat) (σ σ' : Store) : Prop :=
  σ.length ≤ σ'.length ∧ ∀ i, i < n → σ'.getD i 0 = σ.getD i 0

theorem frameGe_refl (n : Nat) (σ : Store) : FrameGe n σ σ :=
  ⟨le_refl _, fun _ _ => rfl⟩

theorem frameGe_trans {n : Nat} {σ1 σ2 σ3 : Store} (h1 : FrameGe n σ1 σ2)
    (h2 : FrameGe n σ2 σ3) : FrameGe n σ1 σ3 :=
  ⟨le_trans h1.1 h2.1, fun i hi => (h2.2 i hi).trans (h1.2 i hi)⟩

/-- A successful `taSet` to a cell at or above `n` leaves cells below `n`
unchanged. -/
theorem taSet_frame {σ σ' : Store} {ta : TARef} {v : Int} {n : Nat}
    (hr : n ≤ ta.ref) (h : taSet σ ta v = .ok σ') : FrameGe n σ σ' := by
  unfold taSet at h
  split at h
  · cases h
  · injection h with h
    subst h
    refine ⟨by rw [List.length_set], fun i hi => ?_⟩
    exact getD_set_ne _ _ _ _ (by omega)

theorem taSetNormalized_frame {σ σ' : Store} {ta : TARef} {v : Int} {n : Nat}
    (hr : n ≤ ta.ref) (h : taSetNormalized σ ta v = .ok σ') : FrameGe n σ σ' :=
  taSet_frame hr h

/-- A successful `taAlloc` leaves cells below the current length
unchanged and returns a fresh reference at the old length. -/
theorem taAlloc_frame {σ σ' : Store} {tok : Token} {v : Int} {r : TARef}
    {n : Nat} (hn : n ≤ σ.length) (h : taAlloc σ tok v = .ok (σ', r)) :
    FrameGe n σ σ' ∧ n ≤ r.ref := by
  unfold taAlloc at h
  obtain ⟨σ1, hS, h⟩ := okOfBind h
  injection h with h
  rw [Prod.mk.injEq] at h
  obtain ⟨he1, he2⟩ := h
  subst he1
  subst he2
  unfold taSet at hS
  split at hS
  · cases hS
  · injection hS with hS
    subst hS
    refine ⟨⟨?_, fun i hi => ?_⟩, hn⟩
    · rw [List.length_set, List.length_append]
      simp
    · rw [getD_set_ne _ _ _ _ (by show List.length σ ≠ i; omega),
        getD_append_left _ _ _ (by omega)]

theorem taCopy_frame {σ σ' : Store} {ta : TARef} {r : TARef} {n : Nat}
    (hn : n ≤ σ.length) (h : taCopy σ ta = .ok (σ', r)) :
    FrameGe n σ σ' ∧ n ≤ r.ref :=
  taAlloc_frame hn h

/-- `Tick.inboundFromOutboundST` only allocates and writes fresh cells. -/
theorem inboundFromOutboundST_frame {σ σ' : Store} {tk : Tick}
    {outb w : TARef} {tok : Token} {n : Nat} (hn : n ≤ σ.length)
    (h : Tick.inboundFromOutboundST σ tk outb tok = .ok (σ', w)) :
    FrameGe n σ σ' ∧ n ≤ w.ref := by
  unfold Tick.inboundFromOutboundST at h
  obtain ⟨pr, hA, h⟩ := okOfBind h
  obtain ⟨σ1, w1⟩ := pr
  obtain ⟨hF1, hr1⟩ := taAlloc_frame hn hA
  obtain ⟨v, hv, h⟩ := okOfBind h
  obtain ⟨σ2, hS, h⟩ := okOfBind h
  injection h with h
  rw [Prod.mk.injEq] at h
  obtain ⟨he1, he2⟩ := h
  subst he1
  subst he2
  exact ⟨frameGe_trans hF1 (taSetNormalized_frame hr1 hS), hr1⟩

/-- `SemiMarket.computeFeesST` only allocates a fresh fee cell. -/
theorem computeFeesST_frame {σ σ' : Store} {m : SemiMarket} {amount : TARef}
    {maxAmount : Option TARef} {w : TARef} {n : Nat} (hn : n ≤ σ.length)
    (h : SemiMarket.computeFeesST σ m amount maxAmount = .ok (σ', w)) :
    FrameGe n σ σ' ∧ n ≤ w.ref := by
  unfold SemiMarket.computeFeesST at h
  split at h
  · cases h
  · cases maxAmount with
    | none => exact taAlloc_frame hn h
    | some maxA =>
      replace h : (if taGet σ maxA < taGet σ amount
          then (Except.error SdkError.maxAmountLowerThanAmount :
            Except SdkError (Store × TARef))
          else taAlloc σ (m.inboundTok.withUnit 1)
            (if taGet σ maxA - taGet σ amount <
                Int.tdiv (taGet σ amount * m.fees) (FEE_DENOMINATOR - m.fees)
             then taGet σ maxA - taGet σ amount
             else Int.tdiv (taGet σ amount * m.fees) (FEE_DENOMINATOR - m.fees))) =
          .ok (σ', w) := h
      by_cases hc : taGet σ maxA < taGet σ amount
      · rw [if_pos hc] at h
        cases h
      · rw [if_neg hc] at h
        exact taAlloc_frame hn h

/-- `SemiMarket.excludingFeesST` only allocates and writes a fresh copy. -/
theorem excludingFeesST_frame {σ σ' : Store} {m : SemiMarket} {amount : TARef}
    {w : TARef} {n : Nat} (hn : n ≤ σ.length)
    (h : SemiMarket.excludingFeesST σ m amount = .ok (σ', w)) :
    FrameGe n σ σ' ∧ n ≤ w.ref := by
  unfold SemiMarket.excludingFeesST at h
  split at h
  · cases h
  · obtain ⟨pr, hC, h⟩ := okOfBind h
    obtain ⟨σ1, w1⟩ := pr
    obtain ⟨hF1, hr1⟩ := taCopy_frame hn hC
    obtain ⟨σ2, hS, h⟩ := okOfBind h
    injection h with h
    rw [Prod.mk.injEq] at h
    obtain ⟨he1, he2⟩ := h
    subst he1
    subst he2
    exact ⟨frameGe_trans hF1 (taSetNormalized_frame hr1 hS), hr1⟩

/-- The exact-in walk writes only the `excl`/`gave`/`got`/`bounty` cells
and fresh allocations: cells below `n` are untouched when those four
references are at or above `n`. -/
theorem simInLoop_frame (m : SemiMarket) (excl gave got bounty prov : TARef)
    (maxT date : Int) (offers : List OfferS) :
    ∀ (n : Nat) (σ σ' : Store), n ≤ σ.length → n ≤ excl.ref → n ≤ gave.ref →
      n ≤ got.ref → n ≤ bounty.ref →
      simInLoop m excl gave got bounty prov maxT date offers σ = .ok σ' →
      FrameGe n σ σ' := by
  induction offers with
  | nil =>
    intro n σ σ' hn _ _ _ _ h
    simp only [simInLoop] at h
    injection h with h
    subst h
    exact frameGe_refl n σ
  | cons o rest ih =>
    intro n σ σ' hn hex hga hgo hbo h
    simp only [simInLoop] at h
    split at h
    · injection h with h
      subst h
      exact frameGe_refl n σ
    · split at h
      · injection h with h
        subst h
        exact frameGe_refl n σ
      · obtain ⟨pr, hW, h⟩ := okOfBind h
        obtain ⟨σ1, wants⟩ := pr
        obtain ⟨hF1, hwr⟩ := inboundFromOutboundST_frame hn hW
        have hn1 : n ≤ σ1.length := le_trans hn hF1.1
        split at h
        · obtain ⟨σ2, hB, h⟩ := okOfBind h
          have hF2 := taSet_frame hbo hB
          have hn2 : n ≤ σ2.length := le_trans hn1 hF2.1
          exact frameGe_trans hF1 (frameGe_trans hF2
            (ih n σ2 σ' hn2 hex hga hgo hbo h))
        · split at h
          · obtain ⟨σ2, h2, h⟩ := okOfBind h
            obtain ⟨σ3, h3, h⟩ := okOfBind h
            obtain ⟨σ4, h4, h⟩ := okOfBind h
            have hF2 := taSet_frame hga h2
            have hF3 := taSet_frame hgo h3
            have hF4 := taSet_frame hex h4
            have hn4 : n ≤ σ4.length :=
              le_trans (le_trans (le_trans hn1 hF2.1) hF3.1) hF4.1
            exact frameGe_trans hF1 (frameGe_trans hF2 (frameGe_trans hF3
              (frameGe_trans hF4 (ih n σ4 σ' hn4 hex hga hgo hbo h))))
          · split at h
            · injection h with h
              subst h
              exact hF1
            · obtain ⟨σ2, h2, h⟩ := okOfBind h
              obtain ⟨σ3, h3, h⟩ := okOfBind h
              obtain ⟨σ4, h4, h⟩ := okOfBind h
              have hF2 := taSetNormalized_frame hgo h2
              have hF3 := taSet_frame hga h3
              have hF4 := taSet_frame hex h4
              have hn4 : n ≤ σ4.length :=
                le_trans (le_trans (le_trans hn1 hF2.1) hF3.1) hF4.1
              exact frameGe_trans hF1 (frameGe_trans hF2 (frameGe_trans hF3
                (frameGe_trans hF4 (ih n σ4 σ' hn4 hex hga hgo hbo h))))

/-- The exact-out walk writes only the `amt`/`gave`/`got`/`bounty` cells
and fresh allocations. -/
theorem simOutLoop_frame (m : SemiMarket) (amt gave got bounty prov : TARef)
    (maxT date : Int) (offers : List OfferS) :
    ∀ (n : Nat) (σ σ' : Store), n ≤ σ.length → n ≤ amt.ref → n ≤ gave.ref →
      n ≤ got.ref → n ≤ bounty.ref →
      simOutLoop m amt gave got bounty prov maxT date offers σ = .ok σ' →
      FrameGe n σ σ' := by
  induction offers with
  | nil =>
    intro n σ σ' hn _ _ _ _ h
    simp only [simOutLoop] at h
    injection h with h
    subst h
    exact frameGe_refl n σ
  | cons o rest ih =>
    intro n σ σ' hn ham hga hgo hbo h
    simp only [simOutLoop] at h
    split at h
    · injection h with h
      subst h
      exact frameGe_refl n σ
    · split at h
      · injection h with h
        subst h
        exact frameGe_refl n σ
      · split at h
        · obtain ⟨σ1, hB, h⟩ := okOfBind h
          have hF1 := taSet_frame hbo hB
          have hn1 : n ≤ σ1.length := le_trans hn hF1.1
          exact frameGe_trans hF1 (ih n σ1 σ' hn1 ham hga hgo hbo h)
        · obtain ⟨pr, hW, h⟩ := okOfBind h
          obtain ⟨σ1, wants⟩ := pr
          obtain ⟨hF1, hwr⟩ := inboundFromOutboundST_frame hn hW
          have hn1 : n ≤ σ1.length := le_trans hn hF1.1
          split at h
          · obtain ⟨σ2, h2, h⟩ := okOfBind h
            obtain ⟨σ3, h3, h⟩ := okOfBind h
            obtain ⟨σ4, h4, h⟩ := okOfBind h
            have hF2 := taSet_frame hga h2
            have hF3 := taSet_frame hgo h3
            have hF4 := taSet_frame ham h4
            have hn4 : n ≤ σ4.length :=
              le_trans (le_trans (le_trans hn1 hF2.1) hF3.1) hF4.1
            exact frameGe_trans hF1 (frameGe_trans hF2 (frameGe_trans hF3
              (frameGe_trans hF4 (ih n σ4 σ' hn4 ham hga hgo hbo h))))
          · obtain ⟨σ2, h2, h⟩ := okOfBind h
            obtain ⟨σ3, h3, h⟩ := okOfBind h
            obtain ⟨σ4, h4, h⟩ := okOfBind h
            have hF2 := taSetNormalized_frame hga h2
            have hF3 := taSet_frame hgo h3
            have hF4 := taSet_frame ham h4
            have hn4 : n ≤ σ4.length :=
              le_trans (le_trans (le_trans hn1 hF2.1) hF3.1) hF4.1
            exact frameGe_trans hF1 (frameGe_trans hF2 (frameGe_trans hF3
              (frameGe_trans hF4 (ih n σ4 σ' hn4 ham hga hgo hbo h))))

/-- `_simulateExactIn` never changes a pre-existing cell. -/
theorem simulateExactIn_frame {σ σ' : Store} {p : SimulationParams}
    {res : OrderResultR} (h : simulateExactIn σ p = .ok (σ', res)) :
    FrameGe σ.length σ σ' := by
  unfold simulateExactIn at h
  obtain ⟨maxTick, hMT, h⟩ := okOfBind h
  obtain ⟨pra, hPr, h⟩ := okOfBind h
  obtain ⟨σa, prov⟩ := pra
  have hFa : FrameGe σ.length σ σa := by
    unfold resolveProvision at hPr
    cases hp : p.provision with
    | some r =>
      rw [hp] at hPr
      injection hPr with hPr
      rw [Prod.mk.injEq] at hPr
      obtain ⟨he1, _⟩ := hPr
      subst he1
      exact frameGe_refl _ _
    | none =>
      rw [hp] at hPr
      exact (taAlloc_frame (le_refl _) hPr).1
  have hna : σ.length ≤ σa.length := le_trans (le_refl _) hFa.1
  obtain ⟨prb, hB, h⟩ := okOfBind h
  obtain ⟨σb, gave⟩ := prb
  obtain ⟨hFb, hgr⟩ := taAlloc_frame hna hB
  have hnb : σ.length ≤ σb.length := le_trans hna hFb.1
  obtain ⟨prc, hC, h⟩ := okOfBind h
  obtain ⟨σc, got⟩ := prc
  obtain ⟨hFc, hgo⟩ := taAlloc_frame hnb hC
  have hnc : σ.length ≤ σc.length := le_trans hnb hFc.1
  obtain ⟨prd, hD, h⟩ := okOfBind h
  obtain ⟨σd, fee0⟩ := prd
  obtain ⟨hFd, _⟩ := taAlloc_frame hnc hD
  have hnd : σ.length ≤ σd.length := le_trans hnc hFd.1
  obtain ⟨pre, hE, h⟩ := okOfBind h
  obtain ⟨σe, bounty⟩ := pre
  obtain ⟨hFe, hbo⟩ := taAlloc_frame hnd hE
  have hne : σ.length ≤ σe.length := le_trans hnd hFe.1
  obtain ⟨prf, hF, h⟩ := okOfBind h
  obtain ⟨σf, excl⟩ := prf
  obtain ⟨hFf, hexr⟩ := excludingFeesST_frame hne hF
  have hnf : σ.length ≤ σf.length := le_trans hne hFf.1
  obtain ⟨σg, hG, h⟩ := okOfBind h
  have hFg := simInLoop_frame p.market excl gave got bounty prov
    maxTick.value p.date p.offers σ.length σf σg hnf hexr hgr hgo hbo hG
  have hng : σ.length ≤ σg.length := le_trans hnf hFg.1
  obtain ⟨prh, hH, h⟩ := okOfBind h
  obtain ⟨σh, fee⟩ := prh
  obtain ⟨hFh, _⟩ := computeFeesST_frame hng hH
  injection h with h
  rw [Prod.mk.injEq] at h
  obtain ⟨he1, _⟩ := h
  subst he1
  exact frameGe_trans hFa (frameGe_trans hFb (frameGe_trans hFc
    (frameGe_trans hFd (frameGe_trans hFe (frameGe_trans hFf
      (frameGe_trans hFg hFh))))))

/-- `_simulateExactOut` never changes a pre-existing cell. -/
theorem simulateExactOut_frame {σ σ' : Store} {p : SimulationParams}
    {res : OrderResultR} (h : simulateExactOut σ p = .ok (σ', res)) :
    FrameGe σ.length σ σ' := by
  unfold simulateExactOut at h
  obtain ⟨maxTick, hMT, h⟩ := okOfBind h
  obtain ⟨pra, hPr, h⟩ := okOfBind h
  obtain ⟨σa, prov⟩ := pra
  have hFa : FrameGe σ.length σ σa := by
    unfold resolveProvision at hPr
    cases hp : p.provision with
    | some r =>
      rw [hp] at hPr
      injection hPr with hPr
      rw [Prod.mk.injEq] at hPr
      obtain ⟨he1, _⟩ := hPr
      subst he1
      exact frameGe_refl _ _
    | none =>
      rw [hp] at hPr
      exact (taAlloc_frame (le_refl _) hPr).1
  have hna : σ.length ≤ σa.length := le_trans (le_refl _) hFa.1
  obtain ⟨prb, hB, h⟩ := okOfBind h
  obtain ⟨σb, gave⟩ := prb
  obtain ⟨hFb, hgr⟩ := taAlloc_frame hna hB
  have hnb : σ.length ≤ σb.length := le_trans hna hFb.1
  obtain ⟨prc, hC, h⟩ := okOfBind h
  obtain ⟨σc, got⟩ := prc
  obtain ⟨hFc, hgo⟩ := taAlloc_frame hnb hC
  have hnc : σ.length ≤ σc.length := le_trans hnb hFc.1
  obtain ⟨prd, hD, h⟩ := okOfBind h
  obtain ⟨σd, fee0⟩ := prd
  obtain ⟨hFd, _⟩ := taAlloc_frame hnc hD
  have hnd : σ.length ≤ σd.length := le_trans hnc hFd.1
  obtain ⟨pre, hE, h⟩ := okOfBind h
  obtain ⟨σe, bounty⟩ := pre
  obtain ⟨hFe, hbo⟩ := taAlloc_frame hnd hE
  have hne : σ.length ≤ σe.length := le_trans hnd hFe.1
  obtain ⟨prf, hF, h⟩ := okOfBind h
  obtain ⟨σf, amt⟩ := prf
  obtain ⟨hFf, hamr⟩ := taCopy_frame hne hF
  have hnf : σ.length ≤ σf.length := le_trans hne hFf.1
  obtain ⟨σg, hG, h⟩ := okOfBind h
  have hFg := simOutLoop_frame p.market amt gave got bounty prov
    maxTick.value p.date p.offers σ.length σf σg hnf hamr hgr hgo hbo hG
  have hng : σ.length ≤ σg.length := le_trans hnf hFg.1
  obtain ⟨prh, hH, h⟩ := okOfBind h
  obtain ⟨σh, fee⟩ := prh
  obtain ⟨hFh, _⟩ := computeFeesST_frame hng hH
  injection h with h
  rw [Prod.mk.injEq] at h
  obtain ⟨he1, _⟩ := h
  subst he1
  exact frameGe_trans hFa (frameGe_trans hFb (frameGe_trans hFc
    (frameGe_trans hFd (frameGe_trans hFe (frameGe_trans hFf
      (frameGe_trans hFg hFh))))))

/-! ## C10: `simulate` never mutates its inputs -/

/-- C10: after a successful `simulate` (in either mode), the caller's
`amount` cell holds the same raw amount as before the call, and so does
every offer's `gives` cell (and in fact every pre-existing cell):
exact-out works on a copy of `amount`, exact-in on the fee-excluded
copy. -/
theorem c10_simulate_no_input_mutation (σ σ' : Store) (p : SimulationParams)
    (res : OrderResultR) (h : simulate σ p = .ok (σ', res))
    (ham : p.amount.ref < σ.length)
    (hgv : ∀ o ∈ p.offers, o.gives.ref < σ.length) :
    taGet σ' p.amount = taGet σ p.amount ∧
      ∀ o ∈ p.offers, taGet σ' o.gives = taGet σ o.gives := by
  have hFrame : FrameGe σ.length σ σ' := by
    unfold simulate at h
    split at h
    · exact simulateExactIn_frame h
    · split at h
      · exact simulateExactOut_frame h
      · cases h
  exact ⟨hFrame.2 _ ham, fun o ho => hFrame.2 _ (hgv o ho)⟩

theorem c10_simulate_no_input_mutation_witness :
    (⟨0, ⟨1, 6, "USDC", 1⟩⟩ : TARef).ref < ([10] : Store).length ∧
      (taGet [10, 0, 0, 0, 0, 0, 10, 0] ⟨0, ⟨1, 6, "USDC", 1⟩⟩ =
          taGet [10] ⟨0, ⟨1, 6, "USDC", 1⟩⟩ ∧
        ∀ o ∈ ([] : List OfferS),
          taGet [10, 0, 0, 0, 0, 0, 10, 0] o.gives = taGet [10] o.gives) :=
  ⟨by decide,
   c10_simulate_no_input_mutation [10] [10, 0, 0, 0, 0, 0, 10, 0]
     ⟨⟨⟨1, 6, "USDC", 1⟩, ⟨2, 18, "WETH", 1⟩, 0, 1⟩, ⟨0, ⟨1, 6, "USDC", 1⟩⟩,
       [], none, 0, none⟩
     ⟨⟨2, ⟨1, 6, "USDC", 1⟩⟩, ⟨3, ⟨2, 18, "WETH", 1⟩⟩, ⟨7, ⟨1, 6, "USDC", 1⟩⟩,
       ⟨5, ⟨0, 18, "ETH", 1000000000⟩⟩⟩
     (by decide) (by decide) (fun o ho => nomatch ho)⟩

/-! ## C9: `simulate` dispatches on the trade amount's token -/

/-- C9: `simulate` runs the exact-in simulation when the amount is
denominated in the market's inbound token, the exact-out simulation when
it is denominated in the outbound token, and otherwise throws
`InvalidToken` carrying the offending token and the expected token set,
producing no result. -/
theorem c9_simulate_dispatch (σ : Store) (p : SimulationParams) :
    (p.amount.token.equals p.market.inboundTok = true →
      simulate σ p = simulateExactIn σ p) ∧
    (p.amount.token.equals p.market.inboundTok = false →
      p.amount.token.equals p.market.outboundTok = true →
      simulate σ p = simulateExactOut σ p) ∧
    (p.amount.token.equals p.market.inboundTok = false →
      p.amount.token.equals p.market.outboundTok = false →
      simulate σ p = .error (.invalidToken p.amount.token
        [p.market.inboundTok, p.market.outboundTok])) := by
  refine ⟨fun h1 => ?_, fun h1 h2 => ?_, fun h1 h2 => ?_⟩
  · unfold simulate
    rw [if_pos h1]
  · unfold simulate
    rw [if_neg (by rw [h1]; decide), if_pos h2]
  · unfold simulate
    rw [if_neg (by rw [h1]; decide), if_neg (by rw [h2]; decide)]

theorem c9_simulate_dispatch_witness :
    Token.equals ⟨3, 8, "WBTC", 1⟩ ⟨1, 6, "USDC", 1⟩ = false ∧
      Token.equals ⟨3, 8, "WBTC", 1⟩ ⟨2, 18, "WETH", 1⟩ = false ∧
      simulate []
          ⟨⟨⟨1, 6, "USDC", 1⟩, ⟨2, 18, "WETH", 1⟩, 0, 1⟩, ⟨0, ⟨3, 8, "WBTC", 1⟩⟩,
            [], none, 0, none⟩ =
        .error (.invalidToken ⟨3, 8, "WBTC", 1⟩
          [⟨1, 6, "USDC", 1⟩, ⟨2, 18, "WETH", 1⟩]) :=
  ⟨by decide, by decide,
   (c9_simulate_dispatch []
     ⟨⟨⟨1, 6, "USDC", 1⟩, ⟨2, 18, "WETH", 1⟩, 0, 1⟩, ⟨0, ⟨3, 8, "WBTC", 1⟩⟩,
       [], none, 0, none⟩).2.2 (by decide) (by decide)⟩

/-! ## Cell-level evaluation lemmas for the store operations -/

theorem getD_set_self (l : List Int) (n : Nat) (a : Int) (h : n < l.length) :
    (l.set n a).getD n 0 = a := by
  unfold List.getD
  rw [List.get?_eq_getElem?]
  rw [List.getElem?_set_self (by simpa using h)]
  rfl

theorem taSet_length {σ σ' : Store} {ta : TARef} {v : Int}
    (h : taSet σ ta v = .ok σ') : σ'.length = σ.length := by
  unfold taSet at h
  split at h
  · cases h
  · injection h with h
    subst h
    exact List.length_set σ ta.ref _

theorem taSet_ne {σ σ' : Store} {ta : TARef} {v : Int}
    (h : taSet σ ta v = .ok σ') :
    ∀ i, i ≠ ta.ref → σ'.getD i 0 = σ.getD i 0 := by
  unfold taSet at h
  split at h
  · cases h
  · injection h with h
    subst h
    intro i hi
    exact getD_set_ne _ _ _ _ (Ne.symm hi)

theorem taSetNormalized_length {σ σ' : Store} {ta : TARef} {v : Int}
    (h : taSetNormalized σ ta v = .ok σ') : σ'.length = σ.length :=
  taSet_length h

theorem taSetNormalized_ne {σ σ' : Store} {ta : TARef} {v : Int}
    (h : taSetNormalized σ ta v = .ok σ') :
    ∀ i, i ≠ ta.ref → σ'.getD i 0 = σ.getD i 0 :=
  taSet_ne h

/-- A successful `taSet` stored the truncated value, and the raw value
passed the 256-bit guard. -/
theorem taSet_value {σ σ' : Store} {ta : TARef} {v : Int}
    (h : taSet σ ta v = .ok σ') (hlt : ta.ref < σ.length) :
    σ'.getD ta.ref 0 = v - Int.tmod v ta.token.unit ∧ 0 ≤ v ∧ v < 2 ^ 256 := by
  unfold taSet at h
  split at h
  · cases h
  · rename_i hfit
    have hc : checkFitsWithin v 256 = true := by
      rcases hb : checkFitsWithin v 256
      · exact absurd (by rw [hb]; rfl) hfit
      · rfl
    obtain ⟨h0, h256⟩ := (checkFitsWithin_iff _ _).mp hc
    injection h with h
    subst h
    exact ⟨getD_set_self _ _ _ hlt, h0, h256⟩

/-- A successful `taAlloc` returns the old length as the fresh reference,
grows the store by one, stores the truncated value there, and leaves every
other cell unchanged. -/
theorem taAlloc_spec {σ σ' : Store} {tok : Token} {v : Int} {r : TARef}
    (h : taAlloc σ tok v = .ok (σ', r)) :
    r.ref = σ.length ∧ r.token = tok ∧ σ'.length = σ.length + 1 ∧
      (∀ i, i ≠ r.ref → σ'.getD i 0 = σ.getD i 0) ∧
      σ'.getD r.ref 0 = v - Int.tmod v tok.unit ∧ 0 ≤ v ∧ v < 2 ^ 256 := by
  unfold taAlloc at h
  obtain ⟨σ1, hS, h⟩ := okOfBind h
  injection h with h
  rw [Prod.mk.injEq] at h
  obtain ⟨he1, he2⟩ := h
  subst he1
  subst he2
  have hlen : ((σ ++ [0] : Store)).length = σ.length + 1 := by
    rw [List.length_append]
    rfl
  obtain ⟨hv, h0, h256⟩ := taSet_value hS
    (by show σ.length < (σ ++ [0] : Store).length; rw [hlen]; omega)
  refine ⟨rfl, rfl, ?_, ?_, hv, h0, h256⟩
  · rw [taSet_length hS, hlen]
  · intro i hi
    have hi' : i ≠ σ.length := hi
    rw [taSet_ne hS i hi]
    rcases lt_or_le i σ.length with hc | hc
    · exact getD_append_left _ _ _ hc
    · rw [List.getD_eq_default _ _ (by rw [hlen]; omega),
        List.getD_eq_default _ _ hc]

/-! ## C3: bounty accounting for expired offers -/

/-- `taSet` leaves every other object's amount unchanged. -/
theorem taSet_get_ne {σ σ' : Store} {ta : TARef} {v : Int}
    (h : taSet σ ta v = .ok σ') (x : TARef) (hx : x.ref ≠ ta.ref) :
    taGet σ' x = taGet σ x :=
  taSet_ne h x.ref hx

theorem taSetNormalized_get_ne {σ σ' : Store} {ta : TARef} {v : Int}
    (h : taSetNormalized σ ta v = .ok σ') (x : TARef) (hx : x.ref ≠ ta.ref) :
    taGet σ' x = taGet σ x :=
  taSet_ne h x.ref hx

/-- Exact-in walk: every expired offer adds at most the full global
provision budget to the bounty (the budget is never decremented), so the
final bounty is bounded by `offers.length * budget` and stays
nonnegative. -/
theorem simInLoop_bounty (m : SemiMarket) (excl gave got bounty prov : TARef)
    (maxT date : Int) (hbu : 0 < bounty.token.unit)
    (offers : List OfferS) :
    ∀ (n : Nat) (σ σ' : Store) (B : Int),
      n ≤ excl.ref → n ≤ gave.ref → n ≤ got.ref → n ≤ bounty.ref →
      bounty.ref ≠ excl.ref → bounty.ref ≠ gave.ref → bounty.ref ≠ got.ref →
      bounty.ref < σ.length → prov.ref < n →
      taGet σ prov = B → 0 ≤ B →
      (∀ o ∈ offers, ∀ pc, o.provision = some pc →
        pc.ref < n ∧ 0 ≤ taGet σ pc) →
      0 ≤ taGet σ bounty →
      simInLoop m excl gave got bounty prov maxT date offers σ = .ok σ' →
      0 ≤ taGet σ' bounty ∧
        taGet σ' bounty ≤ taGet σ bounty + offers.length * B := by
  induction offers with
  | nil =>
    intro n σ σ' B _ _ _ _ _ _ _ _ _ _ _ _ hb0 h
    simp only [simInLoop] at h
    injection h with h
    subst h
    exact ⟨hb0, by simp⟩
  | cons o rest ih =>
    intro n σ σ' B hex hga hgo hbo hne1 hne2 hne3 hblt hpr hpv hB0 hoff hb0 h
    have hBpos : 0 ≤ ((o :: rest).length : Int) * B :=
      mul_nonneg (by positivity) hB0
    have hcast : (((o :: rest).length : Nat) : Int) * B =
        ((rest.length : Nat) : Int) * B + B := by
      simp only [List.length_cons]
      push_cast
      ring
    have hnlt : n < σ.length := lt_of_le_of_lt hbo hblt
    simp only [simInLoop] at h
    split at h
    · injection h with h
      subst h
      exact ⟨hb0, by linarith⟩
    · split at h
      · injection h with h
        subst h
        exact ⟨hb0, by linarith⟩
      · obtain ⟨pr1, hW, h⟩ := okOfBind h
        obtain ⟨σ1, wants⟩ := pr1
        obtain ⟨⟨hlen1, hpres1⟩, hwr⟩ :=
          inboundFromOutboundST_frame (le_refl σ.length) hW
        have hg1 : ∀ x : TARef, x.ref < σ.length → taGet σ1 x = taGet σ x :=
          fun x hx => hpres1 x.ref hx
        have hb1 : taGet σ1 bounty = taGet σ bounty := hg1 bounty hblt
        have hp1 : taGet σ1 prov = taGet σ prov := hg1 prov (by omega)
        have hblt1 : bounty.ref < σ1.length := lt_of_lt_of_le hblt hlen1
        split at h
        · -- expired offer: bounty += min(fromOffer, budget)
          obtain ⟨σ2, hBset0, h⟩ := okOfBind h
          have hBset : taSet σ1 bounty (taGet σ1 bounty +
              (if taGet σ1 prov < (match o.provision with
                  | some p => taGet σ1 p
                  | none => 0) then taGet σ1 prov
               else (match o.provision with
                  | some p => taGet σ1 p
                  | none => 0))) = .ok σ2 := hBset0
          rw [hb1, hp1, hpv] at hBset
          have hlen2 : σ2.length = σ1.length := taSet_length hBset
          have hset_ne : ∀ x : TARef, x.ref ≠ bounty.ref →
              taGet σ2 x = taGet σ1 x := taSet_get_ne hBset
          have hrec : ∀ b2 : Int, taGet σ2 bounty = b2 → 0 ≤ b2 →
              b2 ≤ taGet σ bounty + B →
              0 ≤ taGet σ' bounty ∧
                taGet σ' bounty ≤ taGet σ bounty + (o :: rest).length * B := by
            intro b2 hb2 hb20 hb2hi
            have hrest := ih n σ2 σ' B hex hga hgo hbo hne1 hne2 hne3
              (by omega) hpr
              (by rw [hset_ne prov (by omega), hp1, hpv]) hB0
              (fun o' ho' pc hpc => by
                obtain ⟨hpclt, hpcv⟩ :=
                  hoff o' (List.mem_cons_of_mem o ho') pc hpc
                refine ⟨hpclt, ?_⟩
                rw [hset_ne pc (by omega), hg1 pc (by omega)]
                exact hpcv)
              (by rw [hb2]; exact hb20) h
            rw [hb2] at hrest
            refine ⟨hrest.1, le_trans hrest.2 ?_⟩
            rw [hcast]
            linarith
          have hadd : ∀ v : Int, 0 ≤ v → v ≤ B →
              taSet σ1 bounty (taGet σ bounty + v) = .ok σ2 →
              0 ≤ taGet σ2 bounty ∧ taGet σ2 bounty ≤ taGet σ bounty + B := by
            intro v hv0 hvB hset
            obtain ⟨hval2, hw0, _⟩ := taSet_value hset hblt1
            have hval2' : taGet σ2 bounty = (taGet σ bounty + v) -
                Int.tmod (taGet σ bounty + v) bounty.token.unit := hval2
            have htm := Int.tmod_eq_emod hw0 (le_of_lt hbu)
            have h1 := Int.emod_nonneg (taGet σ bounty + v)
              (by omega : bounty.token.unit ≠ 0)
            have h2 := Int.emod_lt_of_pos (taGet σ bounty + v) hbu
            have hq0 : 0 ≤ (taGet σ bounty + v) / bounty.token.unit :=
              Int.ediv_nonneg (by omega) (le_of_lt hbu)
            have hdm := Int.ediv_add_emod (taGet σ bounty + v) bounty.token.unit
            have hqq : 0 ≤ bounty.token.unit *
                ((taGet σ bounty + v) / bounty.token.unit) :=
              mul_nonneg (le_of_lt hbu) hq0
            rw [hval2', htm]
            constructor
            · linarith
            · linarith
          rcases hop : o.provision with _ | pc
          · simp only [hop] at hBset
            rw [if_neg (by omega)] at hBset
            obtain ⟨hb20, hb2hi⟩ := hadd 0 (le_refl 0) hB0 hBset
            exact hrec _ rfl hb20 hb2hi
          · simp only [hop] at hBset
            obtain ⟨hpclt, hpcv⟩ := hoff o (List.mem_cons_self o rest) pc hop
            have hpc1 : taGet σ1 pc = taGet σ pc := hg1 pc (by omega)
            rw [hpc1] at hBset
            by_cases hcmp : B < taGet σ pc
            · rw [if_pos hcmp] at hBset
              obtain ⟨hb20, hb2hi⟩ := hadd B hB0 (le_refl B) hBset
              exact hrec _ rfl hb20 hb2hi
            · rw [if_neg hcmp] at hBset
              obtain ⟨hb20, hb2hi⟩ := hadd (taGet σ pc) hpcv (by omega) hBset
              exact hrec _ rfl hb20 hb2hi
        · -- live offer: bounty untouched in this step
          have hrec4 : ∀ σ4 : Store,
              σ4.length = σ1.length →
              taGet σ4 bounty = taGet σ bounty →
              taGet σ4 prov = taGet σ prov →
              (∀ x : TARef, x.ref < n → taGet σ4 x = taGet σ x) →
              simInLoop m excl gave got bounty prov maxT date rest σ4 = .ok σ' →
              0 ≤ taGet σ' bounty ∧
                taGet σ' bounty ≤ taGet σ bounty + (o :: rest).length * B := by
            intro σ4 hlen4 hbb hpp hlow h
            have hrest := ih n σ4 σ' B hex hga hgo hbo hne1 hne2 hne3
              (by omega) hpr (by rw [hpp, hpv]) hB0
              (fun o' ho' pc hpc => by
                obtain ⟨hpclt, hpcv⟩ :=
                  hoff o' (List.mem_cons_of_mem o ho') pc hpc
                exact ⟨hpclt, by rw [hlow pc hpclt]; exact hpcv⟩)
              (by rw [hbb]; exact hb0) h
            rw [hbb] at hrest
            refine ⟨hrest.1, le_trans hrest.2 ?_⟩
            rw [hcast]
            linarith
          split at h
          · obtain ⟨σ2, h2, h⟩ := okOfBind h
            obtain ⟨σ3, h3, h⟩ := okOfBind h
            obtain ⟨σ4, h4, h⟩ := okOfBind h
            have s2 := taSet_get_ne h2
            have s3 := taSet_get_ne h3
            have s4 := taSet_get_ne h4
            refine hrec4 σ4 ?_ ?_ ?_ ?_ h
            · rw [taSet_length h4, taSet_length h3, taSet_length h2]
            · rw [s4 bounty hne1, s3 bounty hne3, s2 bounty hne2, hb1]
            · rw [s4 prov (by omega), s3 prov (by omega), s2 prov (by omega),
                hp1]
            · intro x hx
              rw [s4 x (by omega), s3 x (by omega), s2 x (by omega),
                hg1 x (by omega)]
          · split at h
            · injection h with h
              subst h
              rw [hb1]
              exact ⟨hb0, by linarith⟩
            · obtain ⟨σ2, h2, h⟩ := okOfBind h
              obtain ⟨σ3, h3, h⟩ := okOfBind h
              obtain ⟨σ4, h4, h⟩ := okOfBind h
              have s2 := taSetNormalized_get_ne h2
              have s3 := taSet_get_ne h3
              have s4 := taSet_get_ne h4
              refine hrec4 σ4 ?_ ?_ ?_ ?_ h
              · rw [taSet_length h4, taSet_length h3, taSetNormalized_length h2]
              · rw [s4 bounty hne1, s3 bounty hne2, s2 bounty hne3, hb1]
              · rw [s4 prov (by omega), s3 prov (by omega), s2 prov (by omega),
                  hp1]
              · intro x hx
                rw [s4 x (by omega), s3 x (by omega), s2 x (by omega),
                  hg1 x (by omega)]

/-- Exact-out walk: same bounty accounting as the exact-in walk. -/
theorem simOutLoop_bounty (m : SemiMarket) (amt gave got bounty prov : TARef)
    (maxT date : Int) (hbu : 0 < bounty.token.unit)
    (offers : List OfferS) :
    ∀ (n : Nat) (σ σ' : Store) (B : Int),
      n ≤ amt.ref → n ≤ gave.ref → n ≤ got.ref → n ≤ bounty.ref →
      bounty.ref ≠ amt.ref → bounty.ref ≠ gave.ref → bounty.ref ≠ got.ref →
      bounty.ref < σ.length → prov.ref < n →
      taGet σ prov = B → 0 ≤ B →
      (∀ o ∈ offers, ∀ pc, o.provision = some pc →
        pc.ref < n ∧ 0 ≤ taGet σ pc) →
      0 ≤ taGet σ bounty →
      simOutLoop m amt gave got bounty prov maxT date offers σ = .ok σ' →
      0 ≤ taGet σ' bounty ∧
        taGet σ' bounty ≤ taGet σ bounty + offers.length * B := by
  induction offers with
  | nil =>
    intro n σ σ' B _ _ _ _ _ _ _ _ _ _ _ _ hb0 h
    simp only [simOutLoop] at h
    injection h with h
    subst h
    exact ⟨hb0, by simp⟩
  | cons o rest ih =>
    intro n σ σ' B ham hga hgo hbo hne1 hne2 hne3 hblt hpr hpv hB0 hoff hb0 h
    have hBpos : 0 ≤ ((o :: rest).length : Int) * B :=
      mul_nonneg (by positivity) hB0
    have hcast : (((o :: rest).length : Nat) : Int) * B =
        ((rest.length : Nat) : Int) * B + B := by
      simp only [List.length_cons]
      push_cast
      ring
    have hnlt : n < σ.length := lt_of_le_of_lt hbo hblt
    simp only [simOutLoop] at h
    split at h
    · injection h with h
      subst h
      exact ⟨hb0, by linarith⟩
    · split at h
      · injection h with h
        subst h
        exact ⟨hb0, by linarith⟩
      · split at h
        · -- expired offer: bounty += min(fromOffer, budget)
          obtain ⟨σ1, hBset0, h⟩ := okOfBind h
          have hBset : taSet σ bounty (taGet σ bounty +
              (if taGet σ prov < (match o.provision with
                  | some p => taGet σ p
                  | none => 0) then taGet σ prov
               else (match o.provision with
                  | some p => taGet σ p
                  | none => 0))) = .ok σ1 := hBset0
          rw [hpv] at hBset
          have hlen1 : σ1.length = σ.length := taSet_length hBset
          have hset_ne : ∀ x : TARef, x.ref ≠ bounty.ref →
              taGet σ1 x = taGet σ x := taSet_get_ne hBset
          have hrec : ∀ b1 : Int, taGet σ1 bounty = b1 → 0 ≤ b1 →
              b1 ≤ taGet σ bounty + B →
              0 ≤ taGet σ' bounty ∧
                taGet σ' bounty ≤ taGet σ bounty + (o :: rest).length * B := by
            intro b1 hb1 hb10 hb1hi
            have hrest := ih n σ1 σ' B ham hga hgo hbo hne1 hne2 hne3
              (by omega) hpr
              (by rw [hset_ne prov (by omega), hpv]) hB0
              (fun o' ho' pc hpc => by
                obtain ⟨hpclt, hpcv⟩ :=
                  hoff o' (List.mem_cons_of_mem o ho') pc hpc
                exact ⟨hpclt, by rw [hset_ne pc (by omega)]; exact hpcv⟩)
              (by rw [hb1]; exact hb10) h
            rw [hb1] at hrest
            refine ⟨hrest.1, le_trans hrest.2 ?_⟩
            rw [hcast]
            linarith
          have hadd : ∀ v : Int, 0 ≤ v → v ≤ B →
              taSet σ bounty (taGet σ bounty + v) = .ok σ1 →
              0 ≤ taGet σ1 bounty ∧ taGet σ1 bounty ≤ taGet σ bounty + B := by
            intro v hv0 hvB hset
            obtain ⟨hval1, hw0, _⟩ := taSet_value hset hblt
            have hval1' : taGet σ1 bounty = (taGet σ bounty + v) -
                Int.tmod (taGet σ bounty + v) bounty.token.unit := hval1
            have htm := Int.tmod_eq_emod hw0 (le_of_lt hbu)
            have h1 := Int.emod_nonneg (taGet σ bounty + v)
              (by omega : bounty.token.unit ≠ 0)
            have h2 := Int.emod_lt_of_pos (taGet σ bounty + v) hbu
            have hq0 : 0 ≤ (taGet σ bounty + v) / bounty.token.unit :=
              Int.ediv_nonneg (by omega) (le_of_lt hbu)
            have hdm := Int.ediv_add_emod (taGet σ bounty + v) bounty.token.unit
            have hqq : 0 ≤ bounty.token.unit *
                ((taGet σ bounty + v) / bounty.token.unit) :=
              mul_nonneg (le_of_lt hbu) hq0
            rw [hval1', htm]
            constructor
            · linarith
            · linarith
          rcases hop : o.provision with _ | pc
          · simp only [hop] at hBset
            rw [if_neg (by omega)] at hBset
            obtain ⟨hb10, hb1hi⟩ := hadd 0 (le_refl 0) hB0 hBset
            exact hrec _ rfl hb10 hb1hi
          · simp only [hop] at hBset
            obtain ⟨hpclt, hpcv⟩ := hoff o (List.mem_cons_self o rest) pc hop
            by_cases hcmp : B < taGet σ pc
            · rw [if_pos hcmp] at hBset
              obtain ⟨hb10, hb1hi⟩ := hadd B hB0 (le_refl B) hBset
              exact hrec _ rfl hb10 hb1hi
            · rw [if_neg hcmp] at hBset
              obtain ⟨hb10, hb1hi⟩ := hadd (taGet σ pc) hpcv (by omega) hBset
              exact hrec _ rfl hb10 hb1hi
        · -- live offer: bounty untouched in this step
          obtain ⟨pr1, hW, h⟩ := okOfBind h
          obtain ⟨σ1, wants⟩ := pr1
          obtain ⟨⟨hlen1, hpres1⟩, hwr⟩ :=
            inboundFromOutboundST_frame (le_refl σ.length) hW
          have hg1 : ∀ x : TARef, x.ref < σ.length → taGet σ1 x = taGet σ x :=
            fun x hx => hpres1 x.ref hx
          have hb1 : taGet σ1 bounty = taGet σ bounty := hg1 bounty hblt
          have hp1 : taGet σ1 prov = taGet σ prov := hg1 prov (by omega)
          have hrec4 : ∀ σ4 : Store,
              σ4.length = σ1.length →
              taGet σ4 bounty = taGet σ bounty →
              taGet σ4 prov = taGet σ prov →
              (∀ x : TARef, x.ref < n → taGet σ4 x = taGet σ x) →
              simOutLoop m amt gave got bounty prov maxT date rest σ4 = .ok σ' →
              0 ≤ taGet σ' bounty ∧
                taGet σ' bounty ≤ taGet σ bounty + (o :: rest).length * B := by
            intro σ4 hlen4 hbb hpp hlow h
            have hblt1 : bounty.ref < σ1.length := lt_of_lt_of_le hblt hlen1
            have hrest := ih n σ4 σ' B ham hga hgo hbo hne1 hne2 hne3
              (by omega) hpr (by rw [hpp, hpv]) hB0
              (fun o' ho' pc hpc => by
                obtain ⟨hpclt, hpcv⟩ :=
                  hoff o' (List.mem_cons_of_mem o ho') pc hpc
                exact ⟨hpclt, by rw [hlow pc hpclt]; exact hpcv⟩)
              (by rw [hbb]; exact hb0) h
            rw [hbb] at hrest
            refine ⟨hrest.1, le_trans hrest.2 ?_⟩
            rw [hcast]
            linarith
          split at h
          · obtain ⟨σ2, h2, h⟩ := okOfBind h
            obtain ⟨σ3, h3, h⟩ := okOfBind h
            obtain ⟨σ4, h4, h⟩ := okOfBind h
            have s2 := taSet_get_ne h2
            have s3 := taSet_get_ne h3
            have s4 := taSet_get_ne h4
            refine hrec4 σ4 ?_ ?_ ?_ ?_ h
            · rw [taSet_length h4, taSet_length h3, taSet_length h2]
            · rw [s4 bounty hne1, s3 bounty hne3, s2 bounty hne2, hb1]
            · rw [s4 prov (by omega), s3 prov (by omega), s2 prov (by omega),
                hp1]
            · intro x hx
              rw [s4 x (by omega), s3 x (by omega), s2 x (by omega),
                hg1 x (by omega)]
          · obtain ⟨σ2, h2, h⟩ := okOfBind h
            obtain ⟨σ3, h3, h⟩ := okOfBind h
            obtain ⟨σ4, h4, h⟩ := okOfBind h
            have s2 := taSetNormalized_get_ne h2
            have s3 := taSet_get_ne h3
            have s4 := taSet_get_ne h4
            refine hrec4 σ4 ?_ ?_ ?_ ?_ h
            · rw [taSet_length h4, taSet_length h3, taSetNormalized_length h2]
            · rw [s4 bounty hne1, s3 bounty hne3, s2 bounty hne2, hb1]
            · rw [s4 prov (by omega), s3 prov (by omega), s2 prov (by omega),
                hp1]
            · intro x hx
              rw [s4 x (by omega), s3 x (by omega), s2 x (by omega),
                hg1 x (by omega)]

/-- `_simulateExactIn` bounty bound, given an explicit caller provision
budget. -/
theorem simulateExactIn_bounty {σ σ' : Store} {p : SimulationParams}
    {res : OrderResultR} {pr : TARef} {B : Int}
    (hprov : p.provision = some pr) (hpref : pr.ref < σ.length)
    (hB : taGet σ pr = B) (hB0 : 0 ≤ B)
    (hoff : ∀ o ∈ p.offers, ∀ pc, o.provision = some pc →
      pc.ref < σ.length ∧ 0 ≤ taGet σ pc)
    (h : simulateExactIn σ p = .ok (σ', res)) :
    0 ≤ taGet σ' res.bounty ∧
      taGet σ' res.bounty ≤ p.offers.length * B := by
  unfold simulateExactIn at h
  obtain ⟨maxT, hMT, h⟩ := okOfBind h
  obtain ⟨pra, hPr, h⟩ := okOfBind h
  obtain ⟨σa, prov⟩ := pra
  rw [hprov] at hPr
  unfold resolveProvision at hPr
  injection hPr with hPr
  rw [Prod.mk.injEq] at hPr
  obtain ⟨hea, hep⟩ := hPr
  subst hea
  subst hep
  obtain ⟨prb, hB1, h⟩ := okOfBind h
  obtain ⟨σb, gave⟩ := prb
  obtain ⟨hgref, _, hblen, hbne, _⟩ := taAlloc_spec hB1
  obtain ⟨prc, hC1, h⟩ := okOfBind h
  obtain ⟨σc, got⟩ := prc
  obtain ⟨hgoref, _, hclen, hcne, _⟩ := taAlloc_spec hC1
  obtain ⟨prd, hD1, h⟩ := okOfBind h
  obtain ⟨σd, fee0⟩ := prd
  obtain ⟨hfref, _, hdlen, hdne, _⟩ := taAlloc_spec hD1
  obtain ⟨pre, hE1, h⟩ := okOfBind h
  obtain ⟨σe, bounty⟩ := pre
  obtain ⟨hbref, hbtok, helen, hene, hbval, _⟩ := taAlloc_spec hE1
  obtain ⟨prf, hF1, h⟩ := okOfBind h
  obtain ⟨σf, excl⟩ := prf
  obtain ⟨⟨hflen, hfpres⟩, hexr⟩ := excludingFeesST_frame (le_refl σe.length) hF1
  obtain ⟨σg, hG, h⟩ := okOfBind h
  have hGlen : σf.length ≤ σg.length :=
    (simInLoop_frame p.market excl gave got bounty pr maxT.value p.date
      p.offers σ.length σf σg (by omega) (by omega)
      (by omega) (by omega) (by omega) hG).1
  obtain ⟨prh, hH1, h⟩ := okOfBind h
  obtain ⟨σh, fee⟩ := prh
  obtain ⟨⟨hhlen, hhpres⟩, _⟩ := computeFeesST_frame (le_refl σg.length) hH1
  injection h with h
  rw [Prod.mk.injEq] at h
  obtain ⟨he1, he2⟩ := h
  subst he1
  subst he2
  -- value transport from σ to σf for cells below the original length
  have gb : ∀ x : TARef, x.ref < σ.length → taGet σb x = taGet σ x :=
    fun x hx => hbne x.ref (by omega)
  have gc : ∀ x : TARef, x.ref < σ.length → taGet σc x = taGet σb x :=
    fun x hx => hcne x.ref (by omega)
  have gd : ∀ x : TARef, x.ref < σ.length → taGet σd x = taGet σc x :=
    fun x hx => hdne x.ref (by omega)
  have ge : ∀ x : TARef, x.ref < σ.length → taGet σe x = taGet σd x :=
    fun x hx => hene x.ref (by omega)
  have gf : ∀ x : TARef, x.ref < σe.length → taGet σf x = taGet σe x :=
    fun x hx => hfpres x.ref hx
  have gchain : ∀ x : TARef, x.ref < σ.length → taGet σf x = taGet σ x := by
    intro x hx
    rw [gf x (by omega), ge x hx, gd x hx, gc x hx, gb x hx]
  -- the bounty cell starts at zero
  have hbz : taGet σe bounty = 0 := by
    have : taGet σe bounty = 0 - Int.tmod 0 Token.PROVISION_TOKEN.unit := hbval
    rw [this, Int.zero_tmod, sub_zero]
  have hbzf : taGet σf bounty = 0 := by
    rw [gf bounty (by omega), hbz]
  have hbu : 0 < bounty.token.unit := by
    rw [hbtok]
    decide
  have hloop := simInLoop_bounty p.market excl gave got bounty pr
    maxT.value p.date hbu p.offers σ.length σf σg B
    (by omega) (by omega) (by omega) (by omega)
    (by omega) (by omega) (by omega) (by omega) hpref
    (by rw [gchain pr hpref]; exact hB) hB0
    (fun o ho pc hpc => by
      obtain ⟨hpclt, hpcv⟩ := hoff o ho pc hpc
      exact ⟨hpclt, by rw [gchain pc hpclt]; exact hpcv⟩)
    (by rw [hbzf]) hG
  rw [hbzf, zero_add] at hloop
  have hbg : taGet σh bounty = taGet σg bounty := hhpres bounty.ref (by omega)
  exact ⟨by rw [show taGet σh (OrderResultR.mk gave got fee bounty).bounty =
      taGet σh bounty from rfl, hbg]; exact hloop.1,
    by rw [show taGet σh (OrderResultR.mk gave got fee bounty).bounty =
      taGet σh bounty from rfl, hbg]; exact hloop.2⟩

/-- `_simulateExactOut` bounty bound, given an explicit caller provision
budget. -/
theorem simulateExactOut_bounty {σ σ' : Store} {p : SimulationParams}
    {res : OrderResultR} {pr : TARef} {B : Int}
    (hprov : p.provision = some pr) (hpref : pr.ref < σ.length)
    (hB : taGet σ pr = B) (hB0 : 0 ≤ B)
    (hoff : ∀ o ∈ p.offers, ∀ pc, o.provision = some pc →
      pc.ref < σ.length ∧ 0 ≤ taGet σ pc)
    (h : simulateExactOut σ p = .ok (σ', res)) :
    0 ≤ taGet σ' res.bounty ∧
      taGet σ' res.bounty ≤ p.offers.length * B := by
  unfold simulateExactOut at h
  obtain ⟨maxT, hMT, h⟩ := okOfBind h
  obtain ⟨pra, hPr, h⟩ := okOfBind h
  obtain ⟨σa, prov⟩ := pra
  rw [hprov] at hPr
  unfold resolveProvision at hPr
  injection hPr with hPr
  rw [Prod.mk.injEq] at hPr
  obtain ⟨hea, hep⟩ := hPr
  subst hea
  subst hep
  obtain ⟨prb, hB1, h⟩ := okOfBind h
  obtain ⟨σb, gave⟩ := prb
  obtain ⟨hgref, _, hblen, hbne, _⟩ := taAlloc_spec hB1
  obtain ⟨prc, hC1, h⟩ := okOfBind h
  obtain ⟨σc, got⟩ := prc
  obtain ⟨hgoref, _, hclen, hcne, _⟩ := taAlloc_spec hC1
  obtain ⟨prd, hD1, h⟩ := okOfBind h
  obtain ⟨σd, fee0⟩ := prd
  obtain ⟨hfref, _, hdlen, hdne, _⟩ := taAlloc_spec hD1
  obtain ⟨pre, hE1, h⟩ := okOfBind h
  obtain ⟨σe, bounty⟩ := pre
  obtain ⟨hbref, hbtok, helen, hene, hbval, _⟩ := taAlloc_spec hE1
  obtain ⟨prf, hF1, h⟩ := okOfBind h
  obtain ⟨σf, amt⟩ := prf
  obtain ⟨⟨hflen, hfpres⟩, hamr⟩ := taCopy_frame (le_refl σe.length) hF1
  obtain ⟨σg, hG, h⟩ := okOfBind h
  have hGlen : σf.length ≤ σg.length :=
    (simOutLoop_frame p.market amt gave got bounty pr maxT.value p.date
      p.offers σ.length σf σg (by omega) (by omega)
      (by omega) (by omega) (by omega) hG).1
  obtain ⟨prh, hH1, h⟩ := okOfBind h
  obtain ⟨σh, fee⟩ := prh
  obtain ⟨⟨hhlen, hhpres⟩, _⟩ := computeFeesST_frame (le_refl σg.length) hH1
  injection h with h
  rw [Prod.mk.injEq] at h
  obtain ⟨he1, he2⟩ := h
  subst he1
  subst he2
  -- value transport from σ to σf for cells below the original length
  have gb : ∀ x : TARef, x.ref < σ.length → taGet σb x = taGet σ x :=
    fun x hx => hbne x.ref (by omega)
  have gc : ∀ x : TARef, x.ref < σ.length → taGet σc x = taGet σb x :=
    fun x hx => hcne x.ref (by omega)
  have gd : ∀ x : TARef, x.ref < σ.length → taGet σd x = taGet σc x :=
    fun x hx => hdne x.ref (by omega)
  have ge : ∀ x : TARef, x.ref < σ.length → taGet σe x = taGet σd x :=
    fun x hx => hene x.ref (by omega)
  have gf : ∀ x : TARef, x.ref < σe.length → taGet σf x = taGet σe x :=
    fun x hx => hfpres x.ref hx
  have gchain : ∀ x : TARef, x.ref < σ.length → taGet σf x = taGet σ x := by
    intro x hx
    rw [gf x (by omega), ge x hx, gd x hx, gc x hx, gb x hx]
  -- the bounty cell starts at zero
  have hbz : taGet σe bounty = 0 := by
    have : taGet σe bounty = 0 - Int.tmod 0 Token.PROVISION_TOKEN.unit := hbval
    rw [this, Int.zero_tmod, sub_zero]
  have hbzf : taGet σf bounty = 0 := by
    rw [gf bounty (by omega), hbz]
  have hbu : 0 < bounty.token.unit := by
    rw [hbtok]
    decide
  have hloop := simOutLoop_bounty p.market amt gave got bounty pr
    maxT.value p.date hbu p.offers σ.length σf σg B
    (by omega) (by omega) (by omega) (by omega)
    (by omega) (by omega) (by omega) (by omega) hpref
    (by rw [gchain pr hpref]; exact hB) hB0
    (fun o ho pc hpc => by
      obtain ⟨hpclt, hpcv⟩ := hoff o ho pc hpc
      exact ⟨hpclt, by rw [gchain pc hpclt]; exact hpcv⟩)
    (by rw [hbzf]) hG
  rw [hbzf, zero_add] at hloop
  have hbg : taGet σh bounty = taGet σg bounty := hhpres bounty.ref (by omega)
  exact ⟨by rw [show taGet σh (OrderResultR.mk gave got fee bounty).bounty =
      taGet σh bounty from rfl, hbg]; exact hloop.1,
    by rw [show taGet σh (OrderResultR.mk gave got fee bounty).bounty =
      taGet σh bounty from rfl, hbg]; exact hloop.2⟩

/-- C3 (amended): in both simulation modes, each expired offer's bounty
contribution is capped by the full global provision budget (the budget is
never decremented across offers), so the total accumulated bounty is
nonnegative and bounded by `offers.length * budget` — not by the budget
itself. -/
theorem c3_bounty_capped_per_offer (σ σ' : Store) (p : SimulationParams)
    (res : OrderResultR) (pr : TARef) (B : Int)
    (hprov : p.provision = some pr) (hpref : pr.ref < σ.length)
    (hB : taGet σ pr = B) (hB0 : 0 ≤ B)
    (hoff : ∀ o ∈ p.offers, ∀ pc, o.provision = some pc →
      pc.ref < σ.length ∧ 0 ≤ taGet σ pc)
    (h : simulate σ p = .ok (σ', res)) :
    0 ≤ taGet σ' res.bounty ∧
      taGet σ' res.bounty ≤ p.offers.length * B := by
  unfold simulate at h
  split at h
  · exact simulateExactIn_bounty hprov hpref hB hB0 hoff h
  · split at h
    · exact simulateExactOut_bounty hprov hpref hB hB0 hoff h
    · cases h

/-- Concrete C3 scenario: two expired offers, each provisioned with 5
gwei-units, against a global provision budget of 3 gwei-units. -/
def c3TokenIn : Token := ⟨1, 6, "USDC", 1⟩

def c3TokenOut : Token := ⟨2, 18, "WETH", 1⟩

def c3o1 : OfferS := ⟨⟨1, c3TokenOut⟩, ⟨0, 1⟩, some 0, some ⟨3, Token.PROVISION_TOKEN⟩⟩

def c3o2 : OfferS := ⟨⟨2, c3TokenOut⟩, ⟨0, 1⟩, some 0, some ⟨4, Token.PROVISION_TOKEN⟩⟩

def c3Params : SimulationParams :=
  ⟨⟨c3TokenIn, c3TokenOut, 0, 1⟩, ⟨0, c3TokenIn⟩, [c3o1, c3o2], none, 1,
    some ⟨5, Token.PROVISION_TOKEN⟩⟩

def c3Store : Store := [10, 5, 5, 5000000000, 5000000000, 3000000000]

def c3StoreAfter : Store :=
  [10, 5, 5, 5000000000, 5000000000, 3000000000, 0, 0, 0, 6000000000, 10, 5, 5, 0]

def c3Result : OrderResultR :=
  ⟨⟨6, c3TokenIn⟩, ⟨7, c3TokenOut⟩, ⟨13, c3TokenIn⟩, ⟨9, Token.PROVISION_TOKEN⟩⟩

/-- C3 counterexample: with a global provision budget of `3,000,000,000`,
walking two expired offers accumulates a bounty of `6,000,000,000` — each
expired offer is capped at the full budget (the budget is not
decremented), so the total bounty exceeds the budget, refuting the claim
that it never does. -/
theorem c3_bounty_counterexample :
    simulate c3Store c3Params = .ok (c3StoreAfter, c3Result) ∧
      taGet c3StoreAfter c3Result.bounty = 6000000000 ∧
      taGet c3Store ⟨5, Token.PROVISION_TOKEN⟩ = 3000000000 ∧
      ¬ (taGet c3StoreAfter c3Result.bounty ≤
          taGet c3Store ⟨5, Token.PROVISION_TOKEN⟩) :=
  ⟨by decide, by decide, by decide, by decide⟩

theorem c3_bounty_capped_per_offer_witness :
    c3Params.provision = some ⟨5, Token.PROVISION_TOKEN⟩ ∧
      (0 ≤ taGet c3StoreAfter c3Result.bounty ∧
        taGet c3StoreAfter c3Result.bounty ≤
          c3Params.offers.length * 3000000000) := by
  refine ⟨rfl, ?_⟩
  refine c3_bounty_capped_per_offer c3Store c3StoreAfter c3Params c3Result
    ⟨5, Token.PROVISION_TOKEN⟩ 3000000000 rfl (by decide) (by decide)
    (by decide) ?_ (by decide)
  intro o ho pc hpc
  have hm : o = c3o1 ∨ o = c3o2 := by
    have hmem : o ∈ [c3o1, c3o2] := ho
    simpa using hmem
  rcases hm with rfl | rfl
  · have h2 : some (⟨3, Token.PROVISION_TOKEN⟩ : TARef) = some pc := hpc
    injection h2 with h2
    subst h2
    exact ⟨by decide, by decide⟩
  · have h2 : some (⟨4, Token.PROVISION_TOKEN⟩ : TARef) = some pc := hpc
    injection h2 with h2
    subst h2
    exact ⟨by decide, by decide⟩
